import Mathlib

/-!
Verification of the `kiara_modules.network_analysis` utilities
(`src/kiara_modules/network_analysis/utils.py`) against their
natural-language specification.

The Python module is format-conversion glue between GraphML documents,
in-memory graphs, column-oriented tables and a two-table relational store.
Python dictionaries are embedded as association lists over `String` keys
(lookup returns the first matching entry; on duplicate-free lists this is
exactly dict semantics, and every operation below preserves key
uniqueness), Python exceptions as `Except String` / `Option`, and the
mutable store as explicit state threading.
-/

namespace NetworkAnalysis

/-! ### Reserved column names

Modelled from the spec: the reserved identifier, label, source and target
column names are declared in the package's `defaults` module, which is not
part of the sources under verification; the spec fixes only their roles
(identifier, label, source, target), so the role names are used as the
concrete strings. -/

/-- Modelled from the spec: reserved node identifier column name. -/
def ID_COLUMN_NAME : String := "id"

/-- Modelled from the spec: reserved node label column name. -/
def LABEL_COLUMN_NAME : String := "label"

/-- Modelled from the spec: reserved edge source column name. -/
def SOURCE_COLUMN_NAME : String := "source"

/-- Modelled from the spec: reserved edge target column name. -/
def TARGET_COLUMN_NAME : String := "target"

/-! ### Association-list model of Python dictionaries -/

/-- Dictionary lookup: first entry with the given key, if any. -/
def alookup {α : Type} : List (String × α) → String → Option α
  | [], _ => none
  | p :: rest, k => if p.1 = k then some p.2 else alookup rest k

/-- Dictionary membership test (`k in d.keys()`). -/
def acontains {α : Type} (l : List (String × α)) (k : String) : Bool :=
  (alookup l k).isSome

/-- Dictionary key removal (`d.pop(k)` discarding the value). -/
def apop {α : Type} : List (String × α) → String → List (String × α)
  | [], _ => []
  | p :: rest, k => if p.1 = k then apop rest k else p :: apop rest k

/-- Dictionary assignment `d[k] = v`: overwrite in place if the key is
present, append at the end otherwise (Python 3.7+ dict order). -/
def aset {α : Type} : List (String × α) → String → α → List (String × α)
  | [], k, v => [(k, v)]
  | p :: rest, k, v => if p.1 = k then (k, v) :: rest else p :: aset rest k v

/-- The key list of a dictionary, in order. -/
def akeys {α : Type} (l : List (String × α)) : List String :=
  l.map Prod.fst

/-! ### Type mapper (`convert_graphml_type_to_sqlite`)

The Python function indexes a literal six-entry dict; a missing key raises
`KeyError`.  The lookup failure is modelled as `none`. -/

def convert_graphml_type_to_sqlite (data_type : String) : Option String :=
  if data_type = "boolean" then some "INTEGER"
  else if data_type = "int" then some "INTEGER"
  else if data_type = "long" then some "INTEGER"
  else if data_type = "float" then some "REAL"
  else if data_type = "double" then some "REAL"
  else if data_type = "string" then some "TEXT"
  else none

/-! ### Tabular view adapter (`NetworkDataTabularWrap.slice`)

The relational table is modelled as its current list of rows (the store is
an external collaborator; `SELECT count(*)` is the row count,
`SELECT * ... LIMIT n OFFSET o` is `(rows.drop o).take n`).  The Python
guard `if length:` is false both for `None` and for `0`, in which case the
query is bounded by `self.num_rows`. -/

abbrev DbRow := List String

def NetworkDataTabularWrap.slice (rows : List DbRow) (offset : Nat)
    (length : Option Nat) : List DbRow :=
  let lim : Nat :=
    match length with
    | some l => if l ≠ 0 then l else rows.length
    | none => rows.length
  let afterOffset := if offset > 0 then rows.drop offset else rows
  afterOffset.take lim

/-! ### Schema-mapping inserter (`insert_table_data_into_network_graph`)

A column batch (`pyarrow.RecordBatch.to_pydict()`) is a dictionary from
column name to value list; cell values are strings (identifiers).  The
pyarrow table is an external collaborator whose only used capability is
producing fixed-size row batches, so the inserter is modelled directly on
the batch list `table.to_batches(chunk_size)` yields. -/

abbrev Batch := List (String × List String)

abbrev NRecord := List (String × String)

/-- The relational node/edge store.  The store itself is an external
collaborator owned by `NetworkData` (a repository module outside the
sources under verification); it is modelled as the plain record lists it
has received plus the node identifiers it auto-created from edge
endpoints. -/
structure NetworkData where
  nodes : List NRecord
  edges : List NRecord
  autoNodeIds : List String
deriving DecidableEq, Repr

/-- `NetworkData.insert_nodes(*records)`: appends the node records. -/
def NetworkData.insert_nodes (nd : NetworkData) (records : List NRecord) :
    NetworkData :=
  { nd with nodes := nd.nodes ++ records }

/-- The endpoint identifiers (source and target values) of one edge
record. -/
def recordEndpoints (r : NRecord) : List String :=
  (alookup r SOURCE_COLUMN_NAME).toList ++ (alookup r TARGET_COLUMN_NAME).toList

/-- Python `set.add`: insert an identifier if not already present. -/
def seenInsert (seen : List String) (i : String) : List String :=
  if i ∈ seen then seen else seen ++ [i]

/-- Python `set.update`: insert each identifier in turn. -/
def seenUpdate (seen : List String) (ids : List String) : List String :=
  ids.foldl seenInsert seen

/-- Modelled from the spec: `NetworkData.insert_edges(*records,
existing_node_ids)` lives in the repository's `metadata_models` module,
which is not part of the sources under verification.  Per the spec it
inserts the edge records, auto-creates every endpoint identifier not
already present in the passed seen-set, and returns the newly seen
identifiers. -/
def NetworkData.insert_edges (nd : NetworkData) (records : List NRecord)
    (existing : List String) : NetworkData × List String :=
  let newIds :=
    (records.flatMap recordEndpoints).filter (fun i => !(decide (i ∈ existing)))
  ({ nd with
      edges := nd.edges ++ records,
      autoNodeIds := seenUpdate nd.autoNodeIds newIds },
    newIds)

/-- The duplicate-column error message raised in the nodes / edges mapping
loop (the Python source interpolates nothing: the literal text is
`... after mapping: {v}`). -/
def dupErrMsg (isNodes : Bool) : String :=
  if isNodes then "Duplicate nodes column name after mapping: {v}"
  else "Duplicate edges column name after mapping: {v}"

/-- One iteration of the column-mapping loop, for the pair `p = (k, v)`:
if column `k` is present in the batch, rename it to `v` — except that in
the nodes loop (`isNodes = true`) the pair (identifier column, label
column) copies instead of moving and skips the duplicate check.  A rename
whose target already exists raises the duplicate-column error. -/
def applyPair (isNodes : Bool) (bd : Batch) (p : String × String) :
    Except String Batch :=
  match alookup bd p.1 with
  | none => .ok bd
  | some d =>
    if isNodes = true ∧ p.1 = ID_COLUMN_NAME ∧ p.2 = LABEL_COLUMN_NAME then
      .ok (aset bd p.2 d)
    else
      let bd2 := apop bd p.1
      if acontains bd2 p.2 then .error (dupErrMsg isNodes)
      else .ok (aset bd2 p.2 d)

/-- The full column-mapping loop `for k, v in column_map.items(): ...`
applied to one batch. -/
def applyColumnMap (isNodes : Bool) (cmap : List (String × String))
    (bd : Batch) : Except String Batch :=
  match cmap with
  | [] => .ok bd
  | p :: rest =>
    match applyPair isNodes bd p with
    | .error e => .error e
    | .ok bd1 => applyColumnMap isNodes rest bd1

/-- The number of rows `zip(*batch_dict.values())` produces: the length of
the shortest column (Python `zip` truncates). -/
def minColLen : Batch → Nat
  | [] => 0
  | p :: rest => (rest.map (fun q => q.2.length)).foldl min p.2.length

/-- `[dict(zip(batch_dict, t)) for t in zip(*batch_dict.values())]`: the
row-oriented records of a column batch. -/
def toRecords (bd : Batch) : List NRecord :=
  (List.range (minColLen bd)).map (fun i => bd.map (fun p => (p.1, p.2.getD i "")))

/-- The nodes half of the inserter: process each batch — apply the column
mapping, read the identifier column, insert the records, accumulate the
identifiers into the seen-set.  A raised exception stops processing; the
state reached so far is returned together with the error. -/
def insertNodeBatches (cmap : List (String × String)) :
    NetworkData → List String → List Batch →
    NetworkData × List String × Option String
  | nd, seen, [] => (nd, seen, none)
  | nd, seen, b :: rest =>
    match applyColumnMap true cmap b with
    | .error e => (nd, seen, some e)
    | .ok bd =>
      match alookup bd ID_COLUMN_NAME with
      | none => (nd, seen, some "KeyError: id")
      | some ids =>
        insertNodeBatches cmap (nd.insert_nodes (toRecords bd))
          (seenUpdate seen ids) rest

/-- The edges half of the inserter: process each batch — apply the column
mapping, insert the records passing the current seen-set, merge the
returned newly seen identifiers into the seen-set. -/
def insertEdgeBatches (cmap : List (String × String)) :
    NetworkData → List String → List Batch →
    NetworkData × List String × Option String
  | nd, seen, [] => (nd, seen, none)
  | nd, seen, b :: rest =>
    match applyColumnMap false cmap b with
    | .error e => (nd, seen, some e)
    | .ok bd =>
      let step := nd.insert_edges (toRecords bd) seen
      insertEdgeBatches cmap step.1 (seenUpdate seen step.2) rest

/-- `insert_table_data_into_network_graph`: optionally process the nodes
table's batches, then the edges table's batches, threading the store and
the seen-node-identifier set (which starts empty). -/
def insert_table_data_into_network_graph (nd : NetworkData)
    (edgesBatches : List Batch) (edgesColumnMap : List (String × String))
    (nodesBatches : Option (List Batch))
    (nodesColumnMap : List (String × String)) :
    NetworkData × List String × Option String :=
  let r1 :=
    match nodesBatches with
    | none => (nd, ([] : List String), (none : Option String))
    | some nbs => insertNodeBatches nodesColumnMap nd [] nbs
  match r1 with
  | (nd1, seen1, some e) => (nd1, seen1, some e)
  | (nd1, seen1, none) => insertEdgeBatches edgesColumnMap nd1 seen1 edgesBatches

/-! ### GraphML parser (`parse_graphml_file`)

The XML layer (`minidom`) is an external collaborator: the parser only
ever reads the `<key>`, `<node>`, `<edge>` and `<data>` elements below the
single `<graphml>`/`<graph>` pair, so a document is embedded as those
elements already extracted.  A `<data>` element's text content is `none`
when the element has no first child. -/

structure KeyDecl where
  id : String
  attrName : String
  forType : String
  attrType : String
deriving DecidableEq, Repr

structure DataElem where
  key : String
  text : Option String
deriving DecidableEq, Repr

structure NodeElem where
  id : String
  data : List DataElem
deriving DecidableEq, Repr

structure EdgeElem where
  source : String
  target : String
  data : List DataElem
deriving DecidableEq, Repr

structure GraphMLDoc where
  name : String
  keys : List KeyDecl
  nodes : List NodeElem
  edges : List EdgeElem
deriving DecidableEq, Repr

/-- The in-memory graph type (`pygraphml.Graph` when parsing, an
`nx.Graph` when extracting) is an external collaborator; per the spec it
only needs to add a node by identifier, add an edge by endpoint
identifiers, and iterate nodes/edges with their attribute mappings. -/
structure GNode where
  id : String
  attrs : List (String × String)
deriving DecidableEq, Repr

structure GEdge where
  source : String
  target : String
  attrs : List (String × String)
deriving DecidableEq, Repr

structure Graph where
  name : String
  nodes : List GNode
  edges : List GEdge
deriving DecidableEq, Repr

/-- The four dictionaries built by the `<key>` scan: id→name and
name→column-type maps for the edge and node targets. -/
structure KeyScan where
  edgeMap : List (String × String)
  nodeMap : List (String × String)
  edgeProps : List (String × String)
  nodeProps : List (String × String)
deriving DecidableEq, Repr

/-- The `<key>` scan: a key declared `for="edge"` goes into the edge maps,
any other `for` value into the node maps; an unrecognized `attr.type`
raises the type mapper's lookup error. -/
def scanKeys : List KeyDecl → KeyScan → Except String KeyScan
  | [], s => .ok s
  | a :: rest, s =>
    match convert_graphml_type_to_sqlite a.attrType with
    | none => .error "KeyError: unmapped attribute type"
    | some dt =>
      if a.forType = "edge" then
        scanKeys rest
          { s with
              edgeMap := aset s.edgeMap a.id a.attrName,
              edgeProps := aset s.edgeProps a.attrName dt }
      else
        scanKeys rest
          { s with
              nodeMap := aset s.nodeMap a.id a.attrName,
              nodeProps := aset s.nodeProps a.attrName dt }

/-- Python's string order: lexicographic comparison of the code-point
sequences.  This is the same order as `String`'s linear order, stated on
the character lists so that it evaluates by kernel reduction. -/
def pyLe (a b : String) : Prop := a.data < b.data ∨ a.data = b.data

instance : DecidableRel pyLe := fun a b => by
  unfold pyLe; exact inferInstance

instance : IsTotal String pyLe :=
  ⟨fun a b => by
    unfold pyLe
    rcases lt_trichotomy a.data b.data with h | h | h
    · exact Or.inl (Or.inl h)
    · exact Or.inl (Or.inr h)
    · exact Or.inr (Or.inl h)⟩

instance : IsTrans String pyLe :=
  ⟨fun a b c hab hbc => by
    unfold pyLe at hab hbc ⊢
    rcases hab with hab | hab <;> rcases hbc with hbc | hbc
    · exact Or.inl (lt_trans hab hbc)
    · exact Or.inl (hbc ▸ hab)
    · exact Or.inl (hab ▸ hbc)
    · exact Or.inr (hab.trans hbc)⟩

/-- `for key in sorted(node_map.keys()): props_sorted[node_map[key]] =
props[node_map[key]]` — the declaration-id-sorted attribute schema.
Python sorts strings lexicographically by code point (`pyLe`). -/
def sortedProps (m props : List (String × String)) :
    List (String × String) :=
  (List.insertionSort pyLe (akeys m)).foldl
    (fun acc key =>
      let nm := (alookup m key).getD ""
      aset acc nm ((alookup props nm).getD ""))
    []

/-- Set one `<data>` element's attribute on a node or edge: resolve its
key through the id→name map (a missing id raises `KeyError`) and store the
text content, or the empty string when there is none. -/
def applyData (m : List (String × String))
    (attrs : List (String × String)) (d : DataElem) :
    Except String (List (String × String)) :=
  match alookup m d.key with
  | none => .error "KeyError: unknown data key"
  | some mapped => .ok (aset attrs mapped (d.text.getD ""))

/-- Fold `applyData` over a `<data>` element list. -/
def buildAttrs (m : List (String × String)) :
    List DataElem → List (String × String) →
    Except String (List (String × String))
  | [], attrs => .ok attrs
  | d :: rest, attrs =>
    match applyData m attrs d with
    | .error e => .error e
    | .ok attrs1 => buildAttrs m rest attrs1

/-- The `<node>` loop: one `g.add_node(id=...)` per element, then its
`<data>` children. -/
def parseNodes (m : List (String × String)) :
    List NodeElem → Graph → Except String Graph
  | [], g => .ok g
  | ne :: rest, g =>
    match buildAttrs m ne.data [] with
    | .error e => .error e
    | .ok attrs =>
        parseNodes m rest { g with nodes := g.nodes ++ [⟨ne.id, attrs⟩] }

/-- The `<edge>` loop: one `g.add_edge_by_id(source, target)` per element
(the attributes refer to node ids), then its `<data>` children. -/
def parseEdges (m : List (String × String)) :
    List EdgeElem → Graph → Except String Graph
  | [], g => .ok g
  | ee :: rest, g =>
    match buildAttrs m ee.data [] with
    | .error e => .error e
    | .ok attrs =>
        parseEdges m rest
          { g with edges := g.edges ++ [⟨ee.source, ee.target, attrs⟩] }

/-- `parse_graphml_file`: scan the `<key>` declarations, build the two
sorted schemas, then read nodes and edges.  Returns
`(graph, edge_props_sorted, node_props_sorted)`. -/
def parse_graphml_file (doc : GraphMLDoc) :
    Except String
      (Graph × List (String × String) × List (String × String)) :=
  match scanKeys doc.keys ⟨[], [], [], []⟩ with
  | .error e => .error e
  | .ok s =>
    let nodePropsSorted := sortedProps s.nodeMap s.nodeProps
    let edgePropsSorted := sortedProps s.edgeMap s.edgeProps
    match parseNodes s.nodeMap doc.nodes ⟨doc.name, [], []⟩ with
    | .error e => .error e
    | .ok g1 =>
      match parseEdges s.edgeMap doc.edges g1 with
      | .error e => .error e
      | .ok g2 => .ok (g2, edgePropsSorted, nodePropsSorted)

/-- The node-scoped `<key>` declarations (`for` not equal to "edge"), in
document order. -/
def nodeKeyDecls (doc : GraphMLDoc) : List KeyDecl :=
  doc.keys.filter (fun a => decide (a.forType ≠ "edge"))

/-- The edge-scoped `<key>` declarations, in document order. -/
def edgeKeyDecls (doc : GraphMLDoc) : List KeyDecl :=
  doc.keys.filter (fun a => decide (a.forType = "edge"))

/-- The declaration ids of the node-scoped keys, in document order. -/
def nodeKeyIds (doc : GraphMLDoc) : List String :=
  (nodeKeyDecls doc).map (fun a => a.id)

/-- The declaration ids of the edge-scoped keys, in document order. -/
def edgeKeyIds (doc : GraphMLDoc) : List String :=
  (edgeKeyDecls doc).map (fun a => a.id)

/-- The attribute name a node-scoped key id resolves to. -/
def nodeKeyName (doc : GraphMLDoc) (i : String) : String :=
  (alookup ((nodeKeyDecls doc).map (fun a => (a.id, a.attrName))) i).getD ""

/-- The attribute name an edge-scoped key id resolves to. -/
def edgeKeyName (doc : GraphMLDoc) (i : String) : String :=
  (alookup ((edgeKeyDecls doc).map (fun a => (a.id, a.attrName))) i).getD ""

/-! ### Table extractor (`extract_edges_as_table`, `extract_nodes_as_table`)

A table cell is either a real (string) attribute value or the
floating-point not-a-number placeholder `float("nan")` used to pad
attributes a node or edge lacks. -/

inductive CellValue where
  | str : String → CellValue
  | nan : CellValue
deriving DecidableEq, Repr

abbrev AttrTable := List (String × List CellValue)

/-- `set().union(*(d.keys() for d in ...))`: the union of all attribute
names, each kept once. -/
def unionKeys (ds : List (List (String × String))) : List String :=
  ds.foldl
    (fun acc d => (akeys d).foldl
      (fun a k => if k ∈ a then a else a ++ [k]) acc)
    []

/-- `d.get(k, nan)`: the attribute value, or the not-a-number placeholder
when absent. -/
def getCell (attrs : List (String × String)) (k : String) : CellValue :=
  match alookup attrs k with
  | some v => .str v
  | none => .nan

/-- `extract_edges_as_table`: reserved source/target columns plus one
column per attribute name on any edge.  The source re-checks
`SOURCE_COLUMN_NAME` where its error message speaks of the target name;
the final `edge_lists.update(edge_attr)` is the dictionary-update fold. -/
def extract_edges_as_table (g : Graph) : Except String AttrTable :=
  let all_attrs := unionKeys (g.edges.map (fun e => e.attrs))
  if SOURCE_COLUMN_NAME ∈ all_attrs then
    .error ("Source name " ++ SOURCE_COLUMN_NAME ++
      " is an edge attribute name")
  else if SOURCE_COLUMN_NAME ∈ all_attrs then
    .error ("Target name " ++ SOURCE_COLUMN_NAME ++
      " is an edge attribute name")
  else
    let edge_attr := all_attrs.map
      (fun k => (k, g.edges.map (fun e => getCell e.attrs k)))
    let edge_lists : AttrTable :=
      [(SOURCE_COLUMN_NAME, g.edges.map (fun e => .str e.source)),
       (TARGET_COLUMN_NAME, g.edges.map (fun e => .str e.target))]
    .ok (edge_attr.foldl (fun acc p => aset acc p.1 p.2) edge_lists)

/-- `extract_nodes_as_table`: one column per attribute name on any node,
plus the reserved identifier column appended by `node_attr[ID] = ids`. -/
def extract_nodes_as_table (g : Graph) : Except String AttrTable :=
  let all_attrs := unionKeys (g.nodes.map (fun n => n.attrs))
  if ID_COLUMN_NAME ∈ all_attrs then
    .error ("Id column name " ++ ID_COLUMN_NAME ++
      " is an node attribute name")
  else if SOURCE_COLUMN_NAME ∈ all_attrs then
    .error ("Target name " ++ SOURCE_COLUMN_NAME ++
      " is an edge attribute name")
  else
    let node_attr := all_attrs.map
      (fun k => (k, g.nodes.map (fun n => getCell n.attrs k)))
    .ok (aset node_attr ID_COLUMN_NAME (g.nodes.map (fun n => .str n.id)))

/-! ### Lemmas about the association-list operations -/

theorem alookup_cons {α : Type} (p : String × α) (l : List (String × α))
    (k : String) :
    alookup (p :: l) k = if p.1 = k then some p.2 else alookup l k := rfl

theorem alookup_append {α : Type} (l₁ l₂ : List (String × α)) (k : String) :
    alookup (l₁ ++ l₂) k =
      match alookup l₁ k with
      | some v => some v
      | none => alookup l₂ k := by
  induction l₁ with
  | nil => rfl
  | cons p rest ih =>
      by_cases h : p.1 = k
      · simp [alookup, h]
      · simp [alookup, h, ih]

theorem alookup_aset_self {α : Type} (l : List (String × α)) (k : String)
    (v : α) : alookup (aset l k v) k = some v := by
  induction l with
  | nil => simp [aset, alookup]
  | cons p rest ih =>
      by_cases hp : p.1 = k
      · simp [aset, hp, alookup]
      · simp [aset, hp, alookup, ih]

theorem alookup_aset_ne {α : Type} (l : List (String × α)) (k k' : String)
    (v : α) (h : k' ≠ k) : alookup (aset l k v) k' = alookup l k' := by
  have hne : ¬(k = k') := fun hkk => h hkk.symm
  induction l with
  | nil => simp [aset, alookup, hne]
  | cons p rest ih =>
      by_cases hp : p.1 = k
      · have hp' : ¬(p.1 = k') := by rw [hp]; exact hne
        simp [aset, hp, alookup, hne, hp']
      · by_cases hp' : p.1 = k'
        · simp [aset, hp, alookup, hp', h]
        · simp [aset, hp, alookup, hp', ih]

theorem alookup_apop_self {α : Type} (l : List (String × α)) (k : String) :
    alookup (apop l k) k = none := by
  induction l with
  | nil => rfl
  | cons p rest ih =>
      by_cases hp : p.1 = k
      · simp [apop, hp, ih]
      · simp [apop, hp, alookup, ih]

theorem alookup_apop_ne {α : Type} (l : List (String × α)) (k k' : String)
    (h : k' ≠ k) : alookup (apop l k) k' = alookup l k' := by
  induction l with
  | nil => rfl
  | cons p rest ih =>
      have hne : ¬(k = k') := fun hkk => h hkk.symm
      by_cases hp : p.1 = k
      · have hp' : ¬(p.1 = k') := by rw [hp]; exact hne
        simp [apop, hp, alookup, hp', hne, ih]
      · by_cases hp' : p.1 = k'
        · simp [apop, hp, alookup, hp', h]
        · simp [apop, hp, alookup, hp', ih]

theorem aset_of_not_contains {α : Type} (l : List (String × α)) (k : String)
    (v : α) (h : acontains l k = false) : aset l k v = l ++ [(k, v)] := by
  induction l with
  | nil => rfl
  | cons p rest ih =>
      unfold acontains at h ih
      by_cases hp : p.1 = k
      · rw [alookup_cons] at h
        simp [hp] at h
      · rw [alookup_cons] at h
        simp only [hp, if_false] at h
        simp [aset, hp, ih h]

theorem akeys_aset_of_contains {α : Type} (l : List (String × α)) (k : String)
    (v : α) (h : acontains l k = true) : akeys (aset l k v) = akeys l := by
  induction l with
  | nil => unfold acontains alookup at h; simp at h
  | cons p rest ih =>
      unfold acontains at h ih
      by_cases hp : p.1 = k
      · simp [aset, hp, akeys]
      · rw [alookup_cons] at h
        simp only [hp, if_false] at h
        simp [aset, hp, akeys, hp] at ih ⊢
        exact ih h

theorem mem_aset {α : Type} (l : List (String × α)) (k : String) (v : α)
    (p : String × α) (h : p ∈ aset l k v) : p ∈ l ∨ p = (k, v) := by
  induction l with
  | nil =>
      simp only [aset, List.mem_singleton] at h
      right; exact h
  | cons q rest ih =>
      by_cases hq : q.1 = k
      · simp only [aset, hq, if_true, List.mem_cons] at h
        rcases h with h | h
        · right; exact h
        · left; exact List.mem_cons_of_mem _ h
      · simp only [aset, hq, if_false, List.mem_cons] at h
        rcases h with h | h
        · left; exact h ▸ List.mem_cons_self _ _
        · rcases ih h with h' | h'
          · left; exact List.mem_cons_of_mem _ h'
          · right; exact h'

/-! ### Lemmas about the column-mapping loop -/

theorem applyPair_eq_none {n : Bool} {bd : Batch} {p : String × String}
    (hl : alookup bd p.1 = none) : applyPair n bd p = .ok bd := by
  unfold applyPair; rw [hl]

theorem applyPair_eq_some {n : Bool} {bd : Batch} {p : String × String}
    {d : List String} (hl : alookup bd p.1 = some d) :
    applyPair n bd p =
      if n = true ∧ p.1 = ID_COLUMN_NAME ∧ p.2 = LABEL_COLUMN_NAME then
        .ok (aset bd p.2 d)
      else if acontains (apop bd p.1) p.2 then .error (dupErrMsg n)
      else .ok (aset (apop bd p.1) p.2 d) := by
  unfold applyPair; rw [hl]

theorem applyColumnMap_nil (n : Bool) (bd : Batch) :
    applyColumnMap n [] bd = .ok bd := rfl

theorem applyColumnMap_cons_error {n : Bool} {bd : Batch}
    {p : String × String} {rest : List (String × String)} {e : String}
    (hp : applyPair n bd p = .error e) :
    applyColumnMap n (p :: rest) bd = .error e := by
  have hstep : applyColumnMap n (p :: rest) bd =
      match applyPair n bd p with
      | .error e => .error e
      | .ok bd1 => applyColumnMap n rest bd1 := rfl
  rw [hstep, hp]

theorem applyColumnMap_cons_ok {n : Bool} {bd b1 : Batch}
    {p : String × String} {rest : List (String × String)}
    (hp : applyPair n bd p = .ok b1) :
    applyColumnMap n (p :: rest) bd = applyColumnMap n rest b1 := by
  have hstep : applyColumnMap n (p :: rest) bd =
      match applyPair n bd p with
      | .error e => .error e
      | .ok bd1 => applyColumnMap n rest bd1 := rfl
  rw [hstep, hp]

theorem applyColumnMap_append (n : Bool) (l₁ l₂ : List (String × String))
    (bd : Batch) :
    applyColumnMap n (l₁ ++ l₂) bd =
      match applyColumnMap n l₁ bd with
      | .error e => .error e
      | .ok b1 => applyColumnMap n l₂ b1 := by
  induction l₁ generalizing bd with
  | nil => rfl
  | cons p rest ih =>
      rw [List.cons_append]
      cases hp : applyPair n bd p with
      | error e => rw [applyColumnMap_cons_error hp, applyColumnMap_cons_error hp]
      | ok b1 => rw [applyColumnMap_cons_ok hp, applyColumnMap_cons_ok hp, ih b1]

theorem applyPair_error_msg {n : Bool} {bd : Batch} {p : String × String}
    {e : String} (h : applyPair n bd p = .error e) : e = dupErrMsg n := by
  cases hl : alookup bd p.1 with
  | none => rw [applyPair_eq_none hl] at h; exact absurd h (by simp)
  | some d =>
      rw [applyPair_eq_some hl] at h
      by_cases hs : n = true ∧ p.1 = ID_COLUMN_NAME ∧ p.2 = LABEL_COLUMN_NAME
      · rw [if_pos hs] at h; exact absurd h (by simp)
      · rw [if_neg hs] at h
        by_cases hc : acontains (apop bd p.1) p.2
        · simp only [hc, if_true] at h
          exact (Except.error.injEq _ _).mp h.symm
        · simp only [hc, if_false] at h
          exact absurd h (by simp)

theorem applyColumnMap_error_msg {n : Bool} {cmap : List (String × String)}
    {bd : Batch} {e : String} (h : applyColumnMap n cmap bd = .error e) :
    e = dupErrMsg n := by
  induction cmap generalizing bd with
  | nil => rw [applyColumnMap_nil] at h; exact absurd h (by simp)
  | cons p rest ih =>
      cases hp : applyPair n bd p with
      | error e' =>
          rw [applyColumnMap_cons_error hp] at h
          have : e' = e := (Except.error.injEq _ _).mp h
          exact this ▸ applyPair_error_msg hp
      | ok b1 =>
          rw [applyColumnMap_cons_ok hp] at h
          exact ih h

theorem applyPair_contains_preserved {n : Bool} {bd b1 : Batch}
    {p : String × String} {x : String} (h : applyPair n bd p = .ok b1)
    (hx : p.1 ≠ x) (hmem : acontains bd x = true) :
    acontains b1 x = true := by
  cases hl : alookup bd p.1 with
  | none =>
      rw [applyPair_eq_none hl] at h
      cases h; exact hmem
  | some d =>
      rw [applyPair_eq_some hl] at h
      unfold acontains at hmem ⊢
      by_cases hs : n = true ∧ p.1 = ID_COLUMN_NAME ∧ p.2 = LABEL_COLUMN_NAME
      · rw [if_pos hs] at h
        cases h
        by_cases hpx : p.2 = x
        · rw [← hpx, alookup_aset_self]; rfl
        · rw [alookup_aset_ne _ _ _ _ (fun hxx => hpx hxx.symm)]
          exact hmem
      · rw [if_neg hs] at h
        by_cases hc : acontains (apop bd p.1) p.2
        · simp only [hc, if_true] at h; exact absurd h (by simp)
        · simp only [hc, if_false] at h
          cases h
          by_cases hpx : p.2 = x
          · rw [← hpx, alookup_aset_self]; rfl
          · rw [alookup_aset_ne _ _ _ _ (fun hxx => hpx hxx.symm),
              alookup_apop_ne _ _ _ (fun hxx => hx hxx.symm)]
            exact hmem

theorem applyPair_lookup_preserved {n : Bool} {bd b1 : Batch}
    {p : String × String} {x : String} (h : applyPair n bd p = .ok b1)
    (hx1 : p.1 ≠ x) (hx2 : p.2 ≠ x) : alookup b1 x = alookup bd x := by
  cases hl : alookup bd p.1 with
  | none => rw [applyPair_eq_none hl] at h; cases h; rfl
  | some d =>
      rw [applyPair_eq_some hl] at h
      by_cases hs : n = true ∧ p.1 = ID_COLUMN_NAME ∧ p.2 = LABEL_COLUMN_NAME
      · rw [if_pos hs] at h
        cases h
        exact alookup_aset_ne _ _ _ _ (fun hxx => hx2 hxx.symm)
      · rw [if_neg hs] at h
        by_cases hc : acontains (apop bd p.1) p.2
        · simp only [hc, if_true] at h; exact absurd h (by simp)
        · simp only [hc, if_false] at h
          cases h
          rw [alookup_aset_ne _ _ _ _ (fun hxx => hx2 hxx.symm),
            alookup_apop_ne _ _ _ (fun hxx => hx1 hxx.symm)]

theorem applyPair_not_contains_preserved {n : Bool} {bd b1 : Batch}
    {p : String × String} {x : String} (h : applyPair n bd p = .ok b1)
    (hx2 : p.2 ≠ x) (habs : acontains bd x = false) :
    acontains b1 x = false := by
  cases hl : alookup bd p.1 with
  | none => rw [applyPair_eq_none hl] at h; cases h; exact habs
  | some d =>
      rw [applyPair_eq_some hl] at h
      unfold acontains at habs ⊢
      by_cases hs : n = true ∧ p.1 = ID_COLUMN_NAME ∧ p.2 = LABEL_COLUMN_NAME
      · rw [if_pos hs] at h
        cases h
        rw [alookup_aset_ne _ _ _ _ (fun hxx => hx2 hxx.symm)]
        exact habs
      · rw [if_neg hs] at h
        by_cases hc : acontains (apop bd p.1) p.2
        · simp only [hc, if_true] at h; exact absurd h (by simp)
        · simp only [hc, if_false] at h
          cases h
          rw [alookup_aset_ne _ _ _ _ (fun hxx => hx2 hxx.symm)]
          by_cases hpx : p.1 = x
          · rw [← hpx, alookup_apop_self]; rfl
          · rw [alookup_apop_ne _ _ _ (fun hxx => hpx hxx.symm)]
            exact habs

theorem applyColumnMap_contains_preserved {n : Bool}
    {cmap : List (String × String)} {bd bd' : Batch} {x : String}
    (h : applyColumnMap n cmap bd = .ok bd')
    (hx : x ∉ cmap.map Prod.fst) (hmem : acontains bd x = true) :
    acontains bd' x = true := by
  induction cmap generalizing bd with
  | nil =>
      rw [applyColumnMap_nil] at h
      cases h; exact hmem
  | cons p rest ih =>
      cases hp : applyPair n bd p with
      | error e => rw [applyColumnMap_cons_error hp] at h; exact absurd h (by simp)
      | ok b1 =>
          rw [applyColumnMap_cons_ok hp] at h
          have hx1 : p.1 ≠ x := fun he =>
            hx (by rw [List.map_cons, ← he]; exact List.mem_cons_self _ _)
          have hxr : x ∉ rest.map Prod.fst := fun he =>
            hx (by rw [List.map_cons]; exact List.mem_cons_of_mem _ he)
          exact ih h hxr (applyPair_contains_preserved hp hx1 hmem)

theorem applyColumnMap_lookup_preserved {n : Bool}
    {cmap : List (String × String)} {bd bd' : Batch} {x : String}
    (h : applyColumnMap n cmap bd = .ok bd')
    (hx1 : x ∉ cmap.map Prod.fst) (hx2 : x ∉ cmap.map Prod.snd) :
    alookup bd' x = alookup bd x := by
  induction cmap generalizing bd with
  | nil => rw [applyColumnMap_nil] at h; cases h; rfl
  | cons p rest ih =>
      cases hp : applyPair n bd p with
      | error e => rw [applyColumnMap_cons_error hp] at h; exact absurd h (by simp)
      | ok b1 =>
          rw [applyColumnMap_cons_ok hp] at h
          have h1 : p.1 ≠ x := fun he =>
            hx1 (by rw [List.map_cons, ← he]; exact List.mem_cons_self _ _)
          have h2 : p.2 ≠ x := fun he =>
            hx2 (by rw [List.map_cons, ← he]; exact List.mem_cons_self _ _)
          have h1r : x ∉ rest.map Prod.fst := fun he =>
            hx1 (by rw [List.map_cons]; exact List.mem_cons_of_mem _ he)
          have h2r : x ∉ rest.map Prod.snd := fun he =>
            hx2 (by rw [List.map_cons]; exact List.mem_cons_of_mem _ he)
          rw [ih h h1r h2r, applyPair_lookup_preserved hp h1 h2]

theorem applyColumnMap_not_contains_preserved {n : Bool}
    {cmap : List (String × String)} {bd bd' : Batch} {x : String}
    (h : applyColumnMap n cmap bd = .ok bd')
    (hx2 : x ∉ cmap.map Prod.snd) (habs : acontains bd x = false) :
    acontains bd' x = false := by
  induction cmap generalizing bd with
  | nil => rw [applyColumnMap_nil] at h; cases h; exact habs
  | cons p rest ih =>
      cases hp : applyPair n bd p with
      | error e => rw [applyColumnMap_cons_error hp] at h; exact absurd h (by simp)
      | ok b1 =>
          rw [applyColumnMap_cons_ok hp] at h
          have h2 : p.2 ≠ x := fun he =>
            hx2 (by rw [List.map_cons, ← he]; exact List.mem_cons_self _ _)
          have h2r : x ∉ rest.map Prod.snd := fun he =>
            hx2 (by rw [List.map_cons]; exact List.mem_cons_of_mem _ he)
          exact ih h h2r (applyPair_not_contains_preserved hp h2 habs)

theorem not_mem_of_nodup_split {α : Type} {xs ys : List α} {a : α}
    (h : (xs ++ a :: ys).Nodup) : a ∉ xs ∧ a ∉ ys := by
  rw [List.nodup_append] at h
  refine ⟨fun hx => h.2.2 hx (List.mem_cons_self _ _), ?_⟩
  exact (List.nodup_cons.mp h.2.1).1

/-! ### Lemmas about the batch loops and the seen-set -/

theorem mem_seenInsert_of_mem {s : List String} {x : String} (i : String)
    (h : x ∈ s) : x ∈ seenInsert s i := by
  unfold seenInsert
  by_cases hi : i ∈ s
  · rw [if_pos hi]; exact h
  · rw [if_neg hi]; exact List.mem_append_left _ h

theorem mem_seenInsert_self (s : List String) (i : String) :
    i ∈ seenInsert s i := by
  unfold seenInsert
  by_cases hi : i ∈ s
  · rw [if_pos hi]; exact hi
  · rw [if_neg hi]; exact List.mem_append_right _ (List.mem_singleton.mpr rfl)

theorem mem_seenUpdate_of_mem {s : List String} {x : String}
    (ids : List String) (h : x ∈ s) : x ∈ seenUpdate s ids := by
  induction ids generalizing s with
  | nil => exact h
  | cons i rest ih => exact ih (mem_seenInsert_of_mem i h)

theorem mem_seenUpdate_of_mem_ids {s : List String} {x : String}
    {ids : List String} (h : x ∈ ids) : x ∈ seenUpdate s ids := by
  induction ids generalizing s with
  | nil => exact absurd h (List.not_mem_nil x)
  | cons i rest ih =>
      rcases List.mem_cons.mp h with he | hr
      · subst he; exact mem_seenUpdate_of_mem rest (mem_seenInsert_self s _)
      · exact ih hr

theorem insertNodeBatches_cons_error {cmap : List (String × String)}
    {nd : NetworkData} {seen : List String} {b : Batch} {rest : List Batch}
    {e : String} (h : applyColumnMap true cmap b = .error e) :
    insertNodeBatches cmap nd seen (b :: rest) = (nd, seen, some e) := by
  have hstep : insertNodeBatches cmap nd seen (b :: rest) =
      match applyColumnMap true cmap b with
      | .error e => (nd, seen, some e)
      | .ok bd =>
        match alookup bd ID_COLUMN_NAME with
        | none => (nd, seen, some "KeyError: id")
        | some ids =>
          insertNodeBatches cmap (nd.insert_nodes (toRecords bd))
            (seenUpdate seen ids) rest := rfl
  rw [hstep, h]

theorem insertEdgeBatches_cons_error {cmap : List (String × String)}
    {nd : NetworkData} {seen : List String} {b : Batch} {rest : List Batch}
    {e : String} (h : applyColumnMap false cmap b = .error e) :
    insertEdgeBatches cmap nd seen (b :: rest) = (nd, seen, some e) := by
  have hstep : insertEdgeBatches cmap nd seen (b :: rest) =
      match applyColumnMap false cmap b with
      | .error e => (nd, seen, some e)
      | .ok bd =>
        insertEdgeBatches cmap (nd.insert_edges (toRecords bd) seen).1
          (seenUpdate seen (nd.insert_edges (toRecords bd) seen).2) rest := rfl
  rw [hstep, h]

theorem insertEdgeBatches_cons_ok {cmap : List (String × String)}
    {nd : NetworkData} {seen : List String} {b bd : Batch} {rest : List Batch}
    (h : applyColumnMap false cmap b = .ok bd) :
    insertEdgeBatches cmap nd seen (b :: rest) =
      insertEdgeBatches cmap (nd.insert_edges (toRecords bd) seen).1
        (seenUpdate seen (nd.insert_edges (toRecords bd) seen).2) rest := by
  have hstep : insertEdgeBatches cmap nd seen (b :: rest) =
      match applyColumnMap false cmap b with
      | .error e => (nd, seen, some e)
      | .ok bd =>
        insertEdgeBatches cmap (nd.insert_edges (toRecords bd) seen).1
          (seenUpdate seen (nd.insert_edges (toRecords bd) seen).2) rest := rfl
  rw [hstep, h]

theorem insertEdgeBatches_seen_grows (cmap : List (String × String))
    (bs : List Batch) (nd : NetworkData) (seen : List String) (x : String)
    (h : x ∈ seen) : x ∈ (insertEdgeBatches cmap nd seen bs).2.1 := by
  induction bs generalizing nd seen with
  | nil => exact h
  | cons b rest ih =>
      cases hb : applyColumnMap false cmap b with
      | error e => rw [insertEdgeBatches_cons_error hb]; exact h
      | ok bd =>
          rw [insertEdgeBatches_cons_ok hb]
          exact ih _ _ (mem_seenUpdate_of_mem _ h)

/-! ### Claim theorems (type mapper, tabular adapter) -/

/-- Claim C5: the type mapper maps exactly the six recognized GraphML type
names — boolean, int and long to INTEGER, float and double to REAL, string
to TEXT — and every input outside these six fails with a lookup error
(modelled as `none`). -/
theorem convert_graphml_type_maps_exactly_six :
    convert_graphml_type_to_sqlite "boolean" = some "INTEGER" ∧
    convert_graphml_type_to_sqlite "int" = some "INTEGER" ∧
    convert_graphml_type_to_sqlite "long" = some "INTEGER" ∧
    convert_graphml_type_to_sqlite "float" = some "REAL" ∧
    convert_graphml_type_to_sqlite "double" = some "REAL" ∧
    convert_graphml_type_to_sqlite "string" = some "TEXT" ∧
    ∀ s : String,
      s ∉ (["boolean", "int", "long", "float", "double", "string"] :
        List String) →
      convert_graphml_type_to_sqlite s = none := by
  refine ⟨rfl, rfl, rfl, rfl, rfl, rfl, ?_⟩
  intro s hs
  simp only [List.mem_cons, List.not_mem_nil, or_false, not_or] at hs
  obtain ⟨h1, h2, h3, h4, h5, h6⟩ := hs
  simp [convert_graphml_type_to_sqlite, h1, h2, h3, h4, h5, h6]

/-- Witness for claim C5 at the unrecognized input "date". -/
theorem convert_graphml_type_maps_exactly_six_witness :
    convert_graphml_type_to_sqlite "date" = none :=
  convert_graphml_type_maps_exactly_six.2.2.2.2.2.2 "date" (by decide)

/-- Claim C9: slicing with `length = 0` is treated the same as an omitted
length — the query is bounded by the current total row count, so the slice
returns the rest of the table from the offset rather than an empty table. -/
theorem slice_length_zero_same_as_omitted (rows : List DbRow) (offset : Nat) :
    NetworkDataTabularWrap.slice rows offset (some 0) =
      NetworkDataTabularWrap.slice rows offset none ∧
    NetworkDataTabularWrap.slice rows offset (some 0) = rows.drop offset := by
  constructor
  · rfl
  · unfold NetworkDataTabularWrap.slice
    simp only [ne_eq, not_true_eq_false, if_false]
    by_cases h : offset > 0
    · simp only [h, if_true]
      exact List.take_of_length_le (by rw [List.length_drop]; omega)
    · have h0 : offset = 0 := by omega
      simp [h, h0, List.take_of_length_le]

/-- Claim C10: when the nodes column mapping maps the reserved identifier
column to the reserved label column and the batch already contains a label
column, no duplicate-column error is raised — the identifier→label copy
branch skips the duplicate check — and the existing label column's values
are silently overwritten (in place: the key list is unchanged) with the
identifier values. -/
theorem id_to_label_overwrites_existing_label (bd : Batch) (d : List String)
    (hid : alookup bd ID_COLUMN_NAME = some d)
    (hlabel : acontains bd LABEL_COLUMN_NAME = true) :
    applyColumnMap true [(ID_COLUMN_NAME, LABEL_COLUMN_NAME)] bd =
      .ok (aset bd LABEL_COLUMN_NAME d) ∧
    alookup (aset bd LABEL_COLUMN_NAME d) LABEL_COLUMN_NAME = some d ∧
    akeys (aset bd LABEL_COLUMN_NAME d) = akeys bd := by
  refine ⟨?_, alookup_aset_self _ _ _, akeys_aset_of_contains _ _ _ hlabel⟩
  have hp : applyPair true bd (ID_COLUMN_NAME, LABEL_COLUMN_NAME) =
      .ok (aset bd LABEL_COLUMN_NAME d) := by
    rw [applyPair_eq_some hid, if_pos ⟨rfl, rfl, rfl⟩]
  rw [applyColumnMap_cons_ok hp, applyColumnMap_nil]

/-- Witness for claim C10: a concrete batch with both an identifier and a
label column; the mapping succeeds and the label values become the
identifier values. -/
theorem id_to_label_overwrites_existing_label_witness :
    applyColumnMap true [(ID_COLUMN_NAME, LABEL_COLUMN_NAME)]
        [("id", ["n1"]), ("label", ["x"])] =
      .ok (aset [("id", ["n1"]), ("label", ["x"])] LABEL_COLUMN_NAME ["n1"]) ∧
    alookup (aset [("id", ["n1"]), ("label", ["x"])] LABEL_COLUMN_NAME ["n1"])
        LABEL_COLUMN_NAME = some ["n1"] ∧
    akeys (aset [("id", ["n1"]), ("label", ["x"])] LABEL_COLUMN_NAME ["n1"]) =
      akeys [("id", ["n1"]), ("label", ["x"])] :=
  id_to_label_overwrites_existing_label [("id", ["n1"]), ("label", ["x"])]
    ["n1"] (by decide) (by decide)

/-- Claim C4: an edge batch whose column mapping applies cleanly always
succeeds regardless of which endpoints are already in the
seen-node-identifier set, after the batch the seen-set contains every
endpoint identifier of the batch's records, and the seen-set only ever
grows across edge batches.  The edge store (`NetworkData.insert_edges`) is
modelled from the spec: it auto-creates endpoints missing from the passed
set and returns the newly seen identifiers, which the inserter merges
back. -/
theorem edge_batch_unseen_endpoints_succeed_and_merge
    (cmap : List (String × String)) (nd : NetworkData) (seen : List String)
    (b bd : Batch) (hok : applyColumnMap false cmap b = .ok bd) :
    (insertEdgeBatches cmap nd seen [b]).2.2 = none ∧
    (∀ x ∈ (toRecords bd).flatMap recordEndpoints,
      x ∈ (insertEdgeBatches cmap nd seen [b]).2.1) ∧
    ∀ (bs : List Batch) (nd0 : NetworkData) (seen0 : List String),
      ∀ x ∈ seen0, x ∈ (insertEdgeBatches cmap nd0 seen0 bs).2.1 := by
  have hstep : insertEdgeBatches cmap nd seen [b] =
      (( nd.insert_edges (toRecords bd) seen).1,
        seenUpdate seen (nd.insert_edges (toRecords bd) seen).2, none) := by
    rw [insertEdgeBatches_cons_ok hok]; rfl
  refine ⟨by rw [hstep], ?_, fun bs nd0 seen0 x hx =>
    insertEdgeBatches_seen_grows cmap bs nd0 seen0 x hx⟩
  intro x hx
  rw [hstep]
  show x ∈ seenUpdate seen (nd.insert_edges (toRecords bd) seen).2
  by_cases hseen : x ∈ seen
  · exact mem_seenUpdate_of_mem _ hseen
  · apply mem_seenUpdate_of_mem_ids
    show x ∈ (( toRecords bd).flatMap recordEndpoints).filter
      (fun i => !(decide (i ∈ seen)))
    exact List.mem_filter.mpr ⟨hx, by simp [hseen]⟩

/-- Witness for claim C4: one concrete edge batch whose endpoints n1, n2
are absent from the (empty) seen-set; the batch succeeds and n1 ends up in
the merged seen-set. -/
theorem edge_batch_unseen_endpoints_succeed_and_merge_witness :
    (insertEdgeBatches [] ⟨[], [], []⟩ []
      [[("source", ["n1"]), ("target", ["n2"])]]).2.2 = none ∧
    "n1" ∈ (insertEdgeBatches [] ⟨[], [], []⟩ []
      [[("source", ["n1"]), ("target", ["n2"])]]).2.1 := by
  have h := edge_batch_unseen_endpoints_succeed_and_merge [] ⟨[], [], []⟩ []
    [("source", ["n1"]), ("target", ["n2"])]
    [("source", ["n1"]), ("target", ["n2"])] rfl
  exact ⟨h.1, h.2.1 "n1" (by decide)⟩

/-- Claim C3 (amended): a column mapping that renames two distinct source
columns, both present in the batch, to the same target column makes the
inserter raise the duplicate-column error before inserting any row of that
batch — provided the mapping's source columns are distinct, the shared
target is not itself a source column of the mapping, and (in the nodes
loop) the later colliding pair is not the identifier→label special pair.
The batch loop returns the store and seen-set untouched together with the
error. -/
theorem duplicate_target_after_mapping_raises (n : Bool)
    (pre mid post : List (String × String)) (k1 k2 v : String) (b : Batch)
    (h12 : k1 ≠ k2)
    (hk1 : acontains b k1 = true) (hk2 : acontains b k2 = true)
    (hsrc : ((pre ++ (k1, v) :: mid ++ (k2, v) :: post).map Prod.fst).Nodup)
    (hv : v ∉ (pre ++ (k1, v) :: mid ++ (k2, v) :: post).map Prod.fst)
    (hspec : ¬(n = true ∧ k2 = ID_COLUMN_NAME ∧ v = LABEL_COLUMN_NAME)) :
    applyColumnMap n (pre ++ (k1, v) :: mid ++ (k2, v) :: post) b =
      .error (dupErrMsg n) ∧
    (if n = true then
      ∀ (nd : NetworkData) (seen : List String) (rest : List Batch),
        insertNodeBatches (pre ++ (k1, v) :: mid ++ (k2, v) :: post) nd seen
          (b :: rest) = (nd, seen, some (dupErrMsg true))
    else
      ∀ (nd : NetworkData) (seen : List String) (rest : List Batch),
        insertEdgeBatches (pre ++ (k1, v) :: mid ++ (k2, v) :: post) nd seen
          (b :: rest) = (nd, seen, some (dupErrMsg false))) := by
  -- membership facts about the mapping's source columns
  have hmapfst : (pre ++ (k1, v) :: mid ++ (k2, v) :: post).map Prod.fst =
      pre.map Prod.fst ++ k1 :: (mid.map Prod.fst ++ k2 :: post.map Prod.fst) := by
    simp
  have hvs : v ∉ pre.map Prod.fst ∧ v ≠ k1 ∧ v ∉ mid.map Prod.fst ∧ v ≠ k2 := by
    rw [hmapfst] at hv
    simp only [List.mem_append, List.mem_cons, not_or] at hv
    exact ⟨hv.1, hv.2.1, hv.2.2.1, hv.2.2.2.1⟩
  have hk1s : k1 ∉ pre.map Prod.fst := by
    rw [hmapfst] at hsrc
    exact (not_mem_of_nodup_split hsrc).1
  have hk2s : k2 ∉ pre.map Prod.fst ∧ k2 ∉ mid.map Prod.fst ∧ k2 ≠ k1 := by
    rw [hmapfst] at hsrc
    have h2 := (not_mem_of_nodup_split hsrc).2
    have hrest : (mid.map Prod.fst ++ k2 :: post.map Prod.fst).Nodup := by
      rw [List.nodup_append] at hsrc
      exact (List.nodup_cons.mp hsrc.2.1).2
    have hk2mid := (not_mem_of_nodup_split hrest).1
    constructor
    · intro hmem
      rw [List.nodup_append] at hsrc
      exact hsrc.2.2 hmem
        (List.mem_cons_of_mem _ (List.mem_append_right _ (List.mem_cons_self _ _)))
    · refine ⟨hk2mid, fun he => ?_⟩
      rw [List.nodup_append] at hsrc
      have : k2 ∈ k1 :: (mid.map Prod.fst ++ k2 :: post.map Prod.fst) :=
        List.mem_cons_of_mem _ (List.mem_append_right _ (List.mem_cons_self _ _))
      have hnd := hsrc.2.1
      rw [List.nodup_cons] at hnd
      exact hnd.1 (he ▸ List.mem_append_right _ (List.mem_cons_self _ _))
  -- the whole mapping loop raises the duplicate-column error
  have herr : applyColumnMap n (pre ++ (k1, v) :: mid ++ (k2, v) :: post) b =
      .error (dupErrMsg n) := by
    rw [applyColumnMap_append]
    cases houter : applyColumnMap n (pre ++ (k1, v) :: mid) b with
    | error e => rw [applyColumnMap_error_msg houter]
    | ok b3 =>
        -- dissect the successful run over the prefix through the (k1, v) pair
        rw [applyColumnMap_append] at houter
        cases hpre : applyColumnMap n pre b with
        | error e =>
            simp only [hpre] at houter
            exact absurd houter (by simp)
        | ok b1 =>
            simp only [hpre] at houter
            have hk1b1 : acontains b1 k1 = true :=
              applyColumnMap_contains_preserved hpre hk1s hk1
            have hk2b1 : acontains b1 k2 = true :=
              applyColumnMap_contains_preserved hpre hk2s.1 hk2
            cases happ : applyPair n b1 (k1, v) with
            | error e => rw [applyColumnMap_cons_error happ] at houter; simp at houter
            | ok b2 =>
                rw [applyColumnMap_cons_ok happ] at houter
                -- after the (k1, v) pair, the target column v is present
                obtain ⟨d1, hd1⟩ := Option.isSome_iff_exists.mp hk1b1
                rw [applyPair_eq_some hd1] at happ
                dsimp only at happ
                have hvb2 : acontains b2 v = true := by
                  by_cases hs : n = true ∧ k1 = ID_COLUMN_NAME ∧
                      v = LABEL_COLUMN_NAME
                  · rw [if_pos hs] at happ
                    cases happ
                    unfold acontains
                    rw [alookup_aset_self]; rfl
                  · rw [if_neg hs] at happ
                    cases hc : acontains (apop b1 k1) v with
                    | true =>
                        rw [if_pos hc] at happ
                        exact absurd happ (by simp)
                    | false =>
                        rw [if_neg (by simp [hc])] at happ
                        cases happ
                        unfold acontains
                        rw [alookup_aset_self]; rfl
                have hk2b2 : acontains b2 k2 = true := by
                  by_cases hs : n = true ∧ k1 = ID_COLUMN_NAME ∧
                      v = LABEL_COLUMN_NAME
                  · rw [if_pos hs] at happ
                    cases happ
                    unfold acontains at hk2b1 ⊢
                    rw [alookup_aset_ne _ _ _ _ hvs.2.2.2.symm]
                    exact hk2b1
                  · rw [if_neg hs] at happ
                    cases hc : acontains (apop b1 k1) v with
                    | true =>
                        rw [if_pos hc] at happ
                        exact absurd happ (by simp)
                    | false =>
                        rw [if_neg (by simp [hc])] at happ
                        cases happ
                        unfold acontains at hk2b1 ⊢
                        rw [alookup_aset_ne _ _ _ _ hvs.2.2.2.symm,
                          alookup_apop_ne _ _ _ hk2s.2.2]
                        exact hk2b1
                -- the run over mid preserves v and k2, so the (k2, v) pair clashes
                have hvb3 : acontains b3 v = true :=
                  applyColumnMap_contains_preserved houter hvs.2.2.1 hvb2
                have hk2b3 : acontains b3 k2 = true :=
                  applyColumnMap_contains_preserved houter hk2s.2.1 hk2b2
                obtain ⟨d2, hd2⟩ := Option.isSome_iff_exists.mp hk2b3
                have hdup : applyPair n b3 (k2, v) = .error (dupErrMsg n) := by
                  rw [applyPair_eq_some hd2]
                  dsimp only
                  rw [if_neg hspec, if_pos]
                  unfold acontains at hvb3 ⊢
                  rw [alookup_apop_ne _ _ _ hvs.2.2.2]
                  exact hvb3
                exact applyColumnMap_cons_error hdup
  refine ⟨herr, ?_⟩
  cases n with
  | false =>
      rw [if_neg (by simp)]
      intro nd seen rest
      exact insertEdgeBatches_cons_error herr
  | true =>
      rw [if_pos rfl]
      intro nd seen rest
      exact insertNodeBatches_cons_error herr

/-- Witness for claim C3's amended theorem: on the edges side, the mapping
a→v, b→v with both a and b present raises the duplicate-column error and
the store and seen-set stay untouched. -/
theorem duplicate_target_after_mapping_raises_witness :
    insertEdgeBatches [("a", "v"), ("b", "v")] ⟨[], [], []⟩ []
        [[("a", ["1"]), ("b", ["2"])]] =
      (⟨[], [], []⟩, [], some (dupErrMsg false)) := by
  have h := duplicate_target_after_mapping_raises false [] [] []
    "a" "b" "v" [("a", ["1"]), ("b", ["2"])]
    (by decide) (by decide) (by decide) (by decide) (by decide) (by decide)
  have h2 := h.2
  rw [if_neg (by simp)] at h2
  exact h2 ⟨[], [], []⟩ [] []

/-- Counterexample for claim C3 as stated: with the chained edges mapping
a→v, v→w, b→v, the two distinct source columns a and b (both present in
the batch) are renamed to the same target v, yet no duplicate-column error
is raised — the first collision lands on v, a later pair moves v away to
w, and the second collision re-creates v — and the batch's record is
inserted into the store. -/
theorem duplicate_target_bypassed_counterexample :
    insertEdgeBatches [("a", "v"), ("v", "w"), ("b", "v")] ⟨[], [], []⟩ []
        [[("a", ["1"]), ("b", ["2"])]] =
      (⟨[], [[("w", "1"), ("v", "2")]], []⟩, [], none) := by rfl

/-- Under a mapping with distinct sources, distinct targets and no target
that is also a source, a non-special pair whose source is present in the
batch ends with its source column removed and its values under the target
name. -/
theorem applyColumnMap_pair_renamed (n : Bool)
    (pre post : List (String × String)) (p : String × String)
    (bd bd' : Batch)
    (hok : applyColumnMap n (pre ++ p :: post) bd = .ok bd')
    (hsrc : ((pre ++ p :: post).map Prod.fst).Nodup)
    (htgt : ((pre ++ p :: post).map Prod.snd).Nodup)
    (hts : ∀ q ∈ pre ++ p :: post, q.2 ∉ (pre ++ p :: post).map Prod.fst)
    (hmem : acontains bd p.1 = true)
    (hspec : ¬(n = true ∧ p.1 = ID_COLUMN_NAME ∧ p.2 = LABEL_COLUMN_NAME)) :
    acontains bd' p.1 = false ∧ alookup bd' p.2 = alookup bd p.1 := by
  have hmapfst : (pre ++ p :: post).map Prod.fst =
      pre.map Prod.fst ++ p.1 :: post.map Prod.fst := by simp
  have hmapsnd : (pre ++ p :: post).map Prod.snd =
      pre.map Prod.snd ++ p.2 :: post.map Prod.snd := by simp
  have hp1 : p.1 ∉ pre.map Prod.fst ∧ p.1 ∉ post.map Prod.fst := by
    rw [hmapfst] at hsrc; exact not_mem_of_nodup_split hsrc
  have hp1mem : p.1 ∈ (pre ++ p :: post).map Prod.fst := by
    rw [hmapfst]
    exact List.mem_append_right _ (List.mem_cons_self _ _)
  have hp2fst : p.2 ∉ pre.map Prod.fst ∧ p.2 ≠ p.1 ∧
      p.2 ∉ post.map Prod.fst := by
    have := hts p (List.mem_append_right _ (List.mem_cons_self _ _))
    rw [hmapfst] at this
    simp only [List.mem_append, List.mem_cons, not_or] at this
    exact ⟨this.1, this.2.1, this.2.2⟩
  have hp1snd : p.1 ∉ pre.map Prod.snd ∧ p.1 ∉ post.map Prod.snd := by
    constructor
    · intro hmem'
      obtain ⟨q, hq, hq2⟩ := List.mem_map.mp hmem'
      apply hts q (List.mem_append_left _ hq)
      rw [hq2]; exact hp1mem
    · intro hmem'
      obtain ⟨q, hq, hq2⟩ := List.mem_map.mp hmem'
      apply hts q
        (List.mem_append_right _ (List.mem_cons_of_mem _ hq))
      rw [hq2]; exact hp1mem
  have hp2snd : p.2 ∉ post.map Prod.snd := by
    rw [hmapsnd] at htgt; exact (not_mem_of_nodup_split htgt).2
  rw [applyColumnMap_append] at hok
  cases hpre : applyColumnMap n pre bd with
  | error e =>
      simp only [hpre] at hok
      exact absurd hok (by simp)
  | ok b1 =>
      simp only [hpre] at hok
      have hlk : alookup b1 p.1 = alookup bd p.1 :=
        applyColumnMap_lookup_preserved hpre hp1.1 hp1snd.1
      have hc1 : acontains b1 p.1 = true := by
        unfold acontains; rw [hlk]; exact hmem
      obtain ⟨d, hd⟩ := Option.isSome_iff_exists.mp hc1
      cases happ : applyPair n b1 p with
      | error e =>
          rw [applyColumnMap_cons_error happ] at hok
          exact absurd hok (by simp)
      | ok b2 =>
          rw [applyColumnMap_cons_ok happ] at hok
          rw [applyPair_eq_some hd, if_neg hspec] at happ
          cases hc : acontains (apop b1 p.1) p.2 with
          | true =>
              rw [if_pos hc] at happ
              exact absurd happ (by simp)
          | false =>
              rw [if_neg (by simp [hc])] at happ
              cases happ
              constructor
              · apply applyColumnMap_not_contains_preserved hok hp1snd.2
                unfold acontains
                rw [alookup_aset_ne _ _ _ _ hp2fst.2.1.symm,
                  alookup_apop_self]
                rfl
              · rw [applyColumnMap_lookup_preserved hok hp2fst.2.2 hp2snd,
                  alookup_aset_self, ← hlk, hd]

/-- Under the same side conditions, the identifier→label pair copies: the
identifier column keeps its values and the label column ends with the
identifier values. -/
theorem applyColumnMap_pair_copied
    (pre post : List (String × String)) (bd bd' : Batch)
    (hok : applyColumnMap true
      (pre ++ (ID_COLUMN_NAME, LABEL_COLUMN_NAME) :: post) bd = .ok bd')
    (hsrc : ((pre ++ (ID_COLUMN_NAME, LABEL_COLUMN_NAME) :: post).map
      Prod.fst).Nodup)
    (htgt : ((pre ++ (ID_COLUMN_NAME, LABEL_COLUMN_NAME) :: post).map
      Prod.snd).Nodup)
    (hts : ∀ q ∈ pre ++ (ID_COLUMN_NAME, LABEL_COLUMN_NAME) :: post,
      q.2 ∉ (pre ++ (ID_COLUMN_NAME, LABEL_COLUMN_NAME) :: post).map Prod.fst)
    (hmem : acontains bd ID_COLUMN_NAME = true) :
    alookup bd' ID_COLUMN_NAME = alookup bd ID_COLUMN_NAME ∧
    alookup bd' LABEL_COLUMN_NAME = alookup bd ID_COLUMN_NAME := by
  have hidlbl : ID_COLUMN_NAME ≠ LABEL_COLUMN_NAME := by decide
  have hmapfst : ((pre ++ (ID_COLUMN_NAME, LABEL_COLUMN_NAME) :: post).map
      Prod.fst) =
      pre.map Prod.fst ++ ID_COLUMN_NAME :: post.map Prod.fst := by simp
  have hmapsnd : ((pre ++ (ID_COLUMN_NAME, LABEL_COLUMN_NAME) :: post).map
      Prod.snd) =
      pre.map Prod.snd ++ LABEL_COLUMN_NAME :: post.map Prod.snd := by simp
  have hp1 : ID_COLUMN_NAME ∉ pre.map Prod.fst ∧
      ID_COLUMN_NAME ∉ post.map Prod.fst := by
    rw [hmapfst] at hsrc; exact not_mem_of_nodup_split hsrc
  have hp1mem : ID_COLUMN_NAME ∈
      (pre ++ (ID_COLUMN_NAME, LABEL_COLUMN_NAME) :: post).map Prod.fst := by
    rw [hmapfst]
    exact List.mem_append_right _ (List.mem_cons_self _ _)
  have hp2fst : LABEL_COLUMN_NAME ∉ post.map Prod.fst := by
    have := hts (ID_COLUMN_NAME, LABEL_COLUMN_NAME)
      (List.mem_append_right _ (List.mem_cons_self _ _))
    rw [hmapfst] at this
    simp only [List.mem_append, List.mem_cons, not_or] at this
    exact this.2.2
  have hp1snd : ID_COLUMN_NAME ∉ pre.map Prod.snd ∧
      ID_COLUMN_NAME ∉ post.map Prod.snd := by
    constructor
    · intro hmem'
      obtain ⟨q, hq, hq2⟩ := List.mem_map.mp hmem'
      apply hts q (List.mem_append_left _ hq)
      rw [hq2]; exact hp1mem
    · intro hmem'
      obtain ⟨q, hq, hq2⟩ := List.mem_map.mp hmem'
      apply hts q
        (List.mem_append_right _ (List.mem_cons_of_mem _ hq))
      rw [hq2]; exact hp1mem
  have hp2snd : LABEL_COLUMN_NAME ∉ post.map Prod.snd := by
    rw [hmapsnd] at htgt; exact (not_mem_of_nodup_split htgt).2
  rw [applyColumnMap_append] at hok
  cases hpre : applyColumnMap true pre bd with
  | error e =>
      simp only [hpre] at hok
      exact absurd hok (by simp)
  | ok b1 =>
      simp only [hpre] at hok
      have hlk : alookup b1 ID_COLUMN_NAME = alookup bd ID_COLUMN_NAME :=
        applyColumnMap_lookup_preserved hpre hp1.1 hp1snd.1
      have hc1 : acontains b1 ID_COLUMN_NAME = true := by
        unfold acontains; rw [hlk]; exact hmem
      obtain ⟨d, hd⟩ := Option.isSome_iff_exists.mp hc1
      have happ : applyPair true b1 (ID_COLUMN_NAME, LABEL_COLUMN_NAME) =
          .ok (aset b1 LABEL_COLUMN_NAME d) := by
        rw [applyPair_eq_some hd, if_pos ⟨rfl, rfl, rfl⟩]
      rw [applyColumnMap_cons_ok happ] at hok
      constructor
      · rw [applyColumnMap_lookup_preserved hok hp1.2 hp1snd.2,
          alookup_aset_ne _ _ _ _ hidlbl, hlk]
      · rw [applyColumnMap_lookup_preserved hok hp2fst hp2snd,
          alookup_aset_self, ← hlk, hd]

/-- Claim C2 (amended): for every nodes batch whose column mapping maps
the reserved identifier column to the reserved label column — provided the
mapping's source columns are pairwise distinct, its target columns are
pairwise distinct, and no target column is also a source column — a
successful application leaves the identifier column in place with its
original values and yields a label column equal to the identifier column's
original values (a copy, not a move), while every other pair whose source
column is present in the batch is renamed: the source column is removed
and its values sit under the target name. -/
theorem nodes_mapping_id_label_copy_and_renames
    (cmap : List (String × String)) (bd bd' : Batch)
    (hok : applyColumnMap true cmap bd = .ok bd')
    (hsrc : (cmap.map Prod.fst).Nodup)
    (htgt : (cmap.map Prod.snd).Nodup)
    (hts : ∀ q ∈ cmap, q.2 ∉ cmap.map Prod.fst)
    (hid : (ID_COLUMN_NAME, LABEL_COLUMN_NAME) ∈ cmap)
    (hmem : acontains bd ID_COLUMN_NAME = true) :
    alookup bd' ID_COLUMN_NAME = alookup bd ID_COLUMN_NAME ∧
    alookup bd' LABEL_COLUMN_NAME = alookup bd ID_COLUMN_NAME ∧
    ∀ q ∈ cmap, ¬(q.1 = ID_COLUMN_NAME ∧ q.2 = LABEL_COLUMN_NAME) →
      acontains bd q.1 = true →
      acontains bd' q.1 = false ∧ alookup bd' q.2 = alookup bd q.1 := by
  obtain ⟨s, t, hst⟩ := List.append_of_mem hid
  have hcopy := applyColumnMap_pair_copied s t bd bd'
    (hst ▸ hok) (hst ▸ hsrc) (hst ▸ htgt) (hst ▸ hts) hmem
  refine ⟨hcopy.1, hcopy.2, ?_⟩
  intro q hq hqs hqm
  obtain ⟨s', t', hst'⟩ := List.append_of_mem hq
  exact applyColumnMap_pair_renamed true s' t' q bd bd'
    (hst' ▸ hok) (hst' ▸ hsrc) (hst' ▸ htgt) (hst' ▸ hts) hqm
    (fun hc => hqs ⟨hc.2.1, hc.2.2⟩)

/-- Witness for claim C2's amended theorem: the mapping id→label, name→x
on the batch with columns id, name copies the identifiers into the label
column and renames name to x. -/
theorem nodes_mapping_id_label_copy_and_renames_witness :
    alookup [("id", ["n1"]), ("label", ["n1"]), ("x", ["Alice"])]
        LABEL_COLUMN_NAME =
      alookup [("id", ["n1"]), ("name", ["Alice"])] ID_COLUMN_NAME ∧
    acontains [("id", ["n1"]), ("label", ["n1"]), ("x", ["Alice"])] "name" =
      false ∧
    alookup [("id", ["n1"]), ("label", ["n1"]), ("x", ["Alice"])] "x" =
      alookup [("id", ["n1"]), ("name", ["Alice"])] "name" := by
  have h := nodes_mapping_id_label_copy_and_renames
    [("id", "label"), ("name", "x")]
    [("id", ["n1"]), ("name", ["Alice"])]
    [("id", ["n1"]), ("label", ["n1"]), ("x", ["Alice"])]
    rfl (by decide) (by decide) (by decide) (by decide) (by decide)
  have h3 := h.2.2 ("name", "x") (by decide) (by decide) (by decide)
  exact ⟨h.2.1, h3.1, h3.2⟩

/-- Counterexample for claim C2 as stated: with the chained nodes mapping
id→label, a→b, b→c on a batch with columns id and a, the pair a→b has its
source a present in the batch, yet after a successful application the
values do not sit under the target name b — a later pair moved them on to
c and the b column does not exist at all. -/
theorem nodes_mapping_chained_counterexample :
    applyColumnMap true [("id", "label"), ("a", "b"), ("b", "c")]
        [("id", ["n1"]), ("a", ["x"])] =
      .ok [("id", ["n1"]), ("label", ["n1"]), ("c", ["x"])] ∧
    acontains [("id", ["n1"]), ("label", ["n1"]), ("c", ["x"])] "b" =
      false := by
  exact ⟨rfl, rfl⟩

/-! ### Lemmas about the table extractor -/

theorem mem_akeys_of_lookup {α : Type} {l : List (String × α)} {k : String}
    (h : (alookup l k).isSome) : k ∈ akeys l := by
  induction l with
  | nil => simp [alookup] at h
  | cons p rest ih =>
      show k ∈ p.1 :: akeys rest
      rw [alookup_cons] at h
      by_cases hp : p.1 = k
      · exact List.mem_cons.mpr (Or.inl hp.symm)
      · rw [if_neg hp] at h
        exact List.mem_cons_of_mem _ (ih h)

theorem alookup_map_pairs_value {α : Type} (gf : String → α)
    (xs : List String) (k : String) (hk : k ∈ xs) :
    alookup (xs.map (fun x => (x, gf x))) k = some (gf k) := by
  induction xs with
  | nil => cases hk
  | cons x rest ih =>
      rw [List.map_cons, alookup_cons]
      by_cases hx : x = k
      · show (if x = k then some (gf x) else _) = _
        rw [if_pos hx, hx]
      · show (if x = k then some (gf x) else _) = _
        rw [if_neg hx]
        exact ih ((List.mem_cons.mp hk).resolve_left (fun h => hx h.symm))

theorem alookup_foldl_aset_not_mem {α : Type} (ps init : List (String × α))
    (k : String) (hk : k ∉ ps.map Prod.fst) :
    alookup (ps.foldl (fun acc p => aset acc p.1 p.2) init) k =
      alookup init k := by
  induction ps generalizing init with
  | nil => rfl
  | cons q rest ih =>
      have hq : k ≠ q.1 := fun he =>
        hk (by rw [List.map_cons, he]; exact List.mem_cons_self _ _)
      rw [List.foldl_cons, ih _ (fun h => hk (by
        rw [List.map_cons]; exact List.mem_cons_of_mem _ h)),
        alookup_aset_ne _ _ _ _ hq]

theorem alookup_foldl_aset_mem {α : Type} (ps : List (String × α))
    (init : List (String × α)) (k : String) (v : α)
    (hnd : (ps.map Prod.fst).Nodup) (hmem : (k, v) ∈ ps) :
    alookup (ps.foldl (fun acc p => aset acc p.1 p.2) init) k = some v := by
  induction ps generalizing init with
  | nil => cases hmem
  | cons q rest ih =>
      rw [List.foldl_cons]
      rcases List.mem_cons.mp hmem with he | hr
      · have hk : k ∉ rest.map Prod.fst := by
          rw [List.map_cons, List.nodup_cons] at hnd
          rw [← he] at hnd
          exact hnd.1
        rw [alookup_foldl_aset_not_mem _ _ _ hk, ← he, alookup_aset_self]
      · apply ih
        · rw [List.map_cons, List.nodup_cons] at hnd
          exact hnd.2
        · exact hr

theorem mem_foldl_aset {α : Type} (ps : List (String × α))
    (init : List (String × α)) (p : String × α)
    (h : p ∈ ps.foldl (fun acc q => aset acc q.1 q.2) init) :
    p ∈ init ∨ p ∈ ps := by
  induction ps generalizing init with
  | nil => exact Or.inl h
  | cons q rest ih =>
      rw [List.foldl_cons] at h
      rcases ih _ h with h1 | h2
      · rcases mem_aset _ _ _ _ h1 with h3 | h4
        · exact Or.inl h3
        · right
          rw [h4, Prod.mk.eta]
          exact List.mem_cons_self _ _
      · exact Or.inr (List.mem_cons_of_mem _ h2)

theorem mem_foldl_insKey (ks : List String) (acc : List String) (x : String)
    (h : x ∈ acc) :
    x ∈ ks.foldl (fun a k => if k ∈ a then a else a ++ [k]) acc := by
  induction ks generalizing acc with
  | nil => exact h
  | cons k rest ih =>
      rw [List.foldl_cons]
      apply ih
      by_cases hk : k ∈ acc
      · rw [if_pos hk]; exact h
      · rw [if_neg hk]; exact List.mem_append_left _ h

theorem mem_foldl_insKey_self (ks : List String) (acc : List String)
    (x : String) (h : x ∈ ks) :
    x ∈ ks.foldl (fun a k => if k ∈ a then a else a ++ [k]) acc := by
  induction ks generalizing acc with
  | nil => cases h
  | cons k rest ih =>
      rw [List.foldl_cons]
      rcases List.mem_cons.mp h with he | hr
      · subst he
        apply mem_foldl_insKey
        by_cases hk : x ∈ acc
        · rw [if_pos hk]; exact hk
        · rw [if_neg hk]
          exact List.mem_append_right _ (List.mem_singleton.mpr rfl)
      · exact ih _ hr

theorem nodup_foldl_insKey (ks : List String) (acc : List String)
    (h : acc.Nodup) :
    (ks.foldl (fun a k => if k ∈ a then a else a ++ [k]) acc).Nodup := by
  induction ks generalizing acc with
  | nil => exact h
  | cons k rest ih =>
      rw [List.foldl_cons]
      apply ih
      by_cases hk : k ∈ acc
      · rw [if_pos hk]; exact h
      · rw [if_neg hk, List.nodup_append]
        refine ⟨h, List.nodup_singleton _, fun x hx hx1 => ?_⟩
        rw [List.mem_singleton.mp hx1] at hx
        exact hk hx

theorem mem_foldl_union_mono (ds : List (List (String × String)))
    (acc : List String) (x : String) (h : x ∈ acc) :
    x ∈ ds.foldl
      (fun a d => (akeys d).foldl (fun a k => if k ∈ a then a else a ++ [k]) a)
      acc := by
  induction ds generalizing acc with
  | nil => exact h
  | cons d rest ih =>
      rw [List.foldl_cons]
      exact ih _ (mem_foldl_insKey _ _ _ h)

theorem mem_unionKeys (ds : List (List (String × String)))
    (d : List (String × String)) (k : String) (hd : d ∈ ds)
    (hk : k ∈ akeys d) : k ∈ unionKeys ds := by
  unfold unionKeys
  have aux : ∀ (l : List (List (String × String))) (acc : List String),
      d ∈ l → k ∈ l.foldl
        (fun a d =>
          (akeys d).foldl (fun a k => if k ∈ a then a else a ++ [k]) a)
        acc := by
    intro l
    induction l with
    | nil => intro acc h; cases h
    | cons d' rest ih =>
        intro acc h
        rcases List.mem_cons.mp h with he | hr
        · subst he
          rw [List.foldl_cons]
          exact mem_foldl_union_mono _ _ _ (mem_foldl_insKey_self _ _ _ hk)
        · rw [List.foldl_cons]
          exact ih _ hr
  exact aux ds [] hd

theorem unionKeys_nodup (ds : List (List (String × String))) :
    (unionKeys ds).Nodup := by
  unfold unionKeys
  have aux : ∀ (l : List (List (String × String))) (acc : List String),
      acc.Nodup → (l.foldl
        (fun a d =>
          (akeys d).foldl (fun a k => if k ∈ a then a else a ++ [k]) a)
        acc).Nodup := by
    intro l
    induction l with
    | nil => intro acc h; exact h
    | cons d rest ih =>
        intro acc h
        rw [List.foldl_cons]
        exact ih _ (nodup_foldl_insKey _ _ h)
  exact aux ds [] List.nodup_nil

/-! ### Lemmas about the GraphML parser -/

theorem applyData_eq_none {m : List (String × String)}
    {attrs : List (String × String)} {d : DataElem}
    (h : alookup m d.key = none) :
    applyData m attrs d = .error "KeyError: unknown data key" := by
  unfold applyData; rw [h]

theorem applyData_eq_some {m : List (String × String)}
    {attrs : List (String × String)} {d : DataElem} {nm : String}
    (h : alookup m d.key = some nm) :
    applyData m attrs d = .ok (aset attrs nm (d.text.getD "")) := by
  unfold applyData; rw [h]

theorem buildAttrs_cons_error {m : List (String × String)}
    {attrs : List (String × String)} {d : DataElem} {rest : List DataElem}
    {e : String} (h : applyData m attrs d = .error e) :
    buildAttrs m (d :: rest) attrs = .error e := by
  have hstep : buildAttrs m (d :: rest) attrs =
      match applyData m attrs d with
      | .error e => .error e
      | .ok attrs1 => buildAttrs m rest attrs1 := rfl
  rw [hstep, h]

theorem buildAttrs_cons_ok {m : List (String × String)}
    {attrs attrs1 : List (String × String)} {d : DataElem}
    {rest : List DataElem} (h : applyData m attrs d = .ok attrs1) :
    buildAttrs m (d :: rest) attrs = buildAttrs m rest attrs1 := by
  have hstep : buildAttrs m (d :: rest) attrs =
      match applyData m attrs d with
      | .error e => .error e
      | .ok attrs1 => buildAttrs m rest attrs1 := rfl
  rw [hstep, h]

theorem buildAttrs_append (m : List (String × String))
    (l₁ l₂ : List DataElem) (attrs : List (String × String)) :
    buildAttrs m (l₁ ++ l₂) attrs =
      match buildAttrs m l₁ attrs with
      | .error e => .error e
      | .ok attrs1 => buildAttrs m l₂ attrs1 := by
  induction l₁ generalizing attrs with
  | nil => rfl
  | cons d rest ih =>
      rw [List.cons_append]
      cases hd : applyData m attrs d with
      | error e => rw [buildAttrs_cons_error hd, buildAttrs_cons_error hd]
      | ok attrs1 => rw [buildAttrs_cons_ok hd, buildAttrs_cons_ok hd, ih]

theorem buildAttrs_lookup_preserved {m : List (String × String)}
    {l : List DataElem} {attrs attrs' : List (String × String)} {x : String}
    (hl : ∀ d ∈ l, alookup m d.key ≠ some x)
    (h : buildAttrs m l attrs = .ok attrs') :
    alookup attrs' x = alookup attrs x := by
  induction l generalizing attrs with
  | nil => cases h; rfl
  | cons d rest ih =>
      cases hk : alookup m d.key with
      | none =>
          rw [buildAttrs_cons_error (applyData_eq_none hk)] at h
          exact absurd h (by simp)
      | some nm =>
          rw [buildAttrs_cons_ok (applyData_eq_some hk)] at h
          have hnm : nm ≠ x := fun he =>
            hl d (List.mem_cons_self _ _) (he ▸ hk)
          rw [ih (fun d' hd' => hl d' (List.mem_cons_of_mem _ hd')) h,
            alookup_aset_ne _ _ _ _ (fun he => hnm he.symm)]

theorem parseNodes_cons_error {m : List (String × String)} {ne : NodeElem}
    {rest : List NodeElem} {g : Graph} {e : String}
    (h : buildAttrs m ne.data [] = .error e) :
    parseNodes m (ne :: rest) g = .error e := by
  have hstep : parseNodes m (ne :: rest) g =
      match buildAttrs m ne.data [] with
      | .error e => .error e
      | .ok attrs =>
          parseNodes m rest { g with nodes := g.nodes ++ [⟨ne.id, attrs⟩] } :=
    rfl
  rw [hstep, h]

theorem parseNodes_cons_ok {m : List (String × String)} {ne : NodeElem}
    {rest : List NodeElem} {g : Graph} {attrs : List (String × String)}
    (h : buildAttrs m ne.data [] = .ok attrs) :
    parseNodes m (ne :: rest) g =
      parseNodes m rest { g with nodes := g.nodes ++ [⟨ne.id, attrs⟩] } := by
  have hstep : parseNodes m (ne :: rest) g =
      match buildAttrs m ne.data [] with
      | .error e => .error e
      | .ok attrs =>
          parseNodes m rest { g with nodes := g.nodes ++ [⟨ne.id, attrs⟩] } :=
    rfl
  rw [hstep, h]

theorem parseEdges_cons_error {m : List (String × String)} {ee : EdgeElem}
    {rest : List EdgeElem} {g : Graph} {e : String}
    (h : buildAttrs m ee.data [] = .error e) :
    parseEdges m (ee :: rest) g = .error e := by
  have hstep : parseEdges m (ee :: rest) g =
      match buildAttrs m ee.data [] with
      | .error e => .error e
      | .ok attrs =>
          parseEdges m rest
            { g with edges := g.edges ++ [⟨ee.source, ee.target, attrs⟩] } :=
    rfl
  rw [hstep, h]

theorem parseEdges_cons_ok {m : List (String × String)} {ee : EdgeElem}
    {rest : List EdgeElem} {g : Graph} {attrs : List (String × String)}
    (h : buildAttrs m ee.data [] = .ok attrs) :
    parseEdges m (ee :: rest) g =
      parseEdges m rest
        { g with edges := g.edges ++ [⟨ee.source, ee.target, attrs⟩] } := by
  have hstep : parseEdges m (ee :: rest) g =
      match buildAttrs m ee.data [] with
      | .error e => .error e
      | .ok attrs =>
          parseEdges m rest
            { g with edges := g.edges ++ [⟨ee.source, ee.target, attrs⟩] } :=
    rfl
  rw [hstep, h]

theorem parseNodes_ok_shape {m : List (String × String)}
    {l : List NodeElem} {g0 g' : Graph} (h : parseNodes m l g0 = .ok g') :
    g'.nodes.length = g0.nodes.length + l.length ∧ g'.edges = g0.edges := by
  induction l generalizing g0 with
  | nil => cases h; exact ⟨rfl, rfl⟩
  | cons ne rest ih =>
      cases hb : buildAttrs m ne.data [] with
      | error e =>
          rw [parseNodes_cons_error hb] at h
          exact absurd h (by simp)
      | ok attrs =>
          rw [parseNodes_cons_ok hb] at h
          obtain ⟨h1, h2⟩ := ih h
          constructor
          · rw [h1]
            simp [List.length_append]
            omega
          · exact h2

theorem parseEdges_ok_shape {m : List (String × String)}
    {l : List EdgeElem} {g0 g' : Graph} (h : parseEdges m l g0 = .ok g') :
    g'.edges.length = g0.edges.length + l.length ∧ g'.nodes = g0.nodes := by
  induction l generalizing g0 with
  | nil => cases h; exact ⟨rfl, rfl⟩
  | cons ee rest ih =>
      cases hb : buildAttrs m ee.data [] with
      | error e =>
          rw [parseEdges_cons_error hb] at h
          exact absurd h (by simp)
      | ok attrs =>
          rw [parseEdges_cons_ok hb] at h
          obtain ⟨h1, h2⟩ := ih h
          constructor
          · rw [h1]
            simp [List.length_append]
            omega
          · exact h2

theorem parseNodes_nodes_mono {m : List (String × String)}
    {l : List NodeElem} {g0 g' : Graph} {x : GNode}
    (h : parseNodes m l g0 = .ok g') (hx : x ∈ g0.nodes) : x ∈ g'.nodes := by
  induction l generalizing g0 with
  | nil => cases h; exact hx
  | cons ne rest ih =>
      cases hb : buildAttrs m ne.data [] with
      | error e =>
          rw [parseNodes_cons_error hb] at h
          exact absurd h (by simp)
      | ok attrs =>
          rw [parseNodes_cons_ok hb] at h
          exact ih h (List.mem_append_left _ hx)

theorem parseNodes_mem {m : List (String × String)} {l : List NodeElem}
    {g0 g' : Graph} {ne : NodeElem} {attrs : List (String × String)}
    (h : parseNodes m l g0 = .ok g') (hne : ne ∈ l)
    (hb : buildAttrs m ne.data [] = .ok attrs) :
    (⟨ne.id, attrs⟩ : GNode) ∈ g'.nodes := by
  induction l generalizing g0 with
  | nil => cases hne
  | cons ne' rest ih =>
      cases hb' : buildAttrs m ne'.data [] with
      | error e =>
          rw [parseNodes_cons_error hb'] at h
          exact absurd h (by simp)
      | ok attrs' =>
          rw [parseNodes_cons_ok hb'] at h
          rcases List.mem_cons.mp hne with he | hr
          · subst he
            have : attrs' = attrs := by
              rw [hb] at hb'
              exact ((Except.ok.injEq _ _).mp hb').symm
            subst this
            exact parseNodes_nodes_mono h
              (List.mem_append_right _ (List.mem_singleton.mpr rfl))
          · exact ih h hr

theorem parseEdges_edges_mono {m : List (String × String)}
    {l : List EdgeElem} {g0 g' : Graph} {x : GEdge}
    (h : parseEdges m l g0 = .ok g') (hx : x ∈ g0.edges) : x ∈ g'.edges := by
  induction l generalizing g0 with
  | nil => cases h; exact hx
  | cons ee rest ih =>
      cases hb : buildAttrs m ee.data [] with
      | error e =>
          rw [parseEdges_cons_error hb] at h
          exact absurd h (by simp)
      | ok attrs =>
          rw [parseEdges_cons_ok hb] at h
          exact ih h (List.mem_append_left _ hx)

theorem parseEdges_mem {m : List (String × String)} {l : List EdgeElem}
    {g0 g' : Graph} {ee : EdgeElem} {attrs : List (String × String)}
    (h : parseEdges m l g0 = .ok g') (hee : ee ∈ l)
    (hb : buildAttrs m ee.data [] = .ok attrs) :
    (⟨ee.source, ee.target, attrs⟩ : GEdge) ∈ g'.edges := by
  induction l generalizing g0 with
  | nil => cases hee
  | cons ee' rest ih =>
      cases hb' : buildAttrs m ee'.data [] with
      | error e =>
          rw [parseEdges_cons_error hb'] at h
          exact absurd h (by simp)
      | ok attrs' =>
          rw [parseEdges_cons_ok hb'] at h
          rcases List.mem_cons.mp hee with he | hr
          · subst he
            have : attrs' = attrs := by
              rw [hb] at hb'
              exact ((Except.ok.injEq _ _).mp hb').symm
            subst this
            exact parseEdges_edges_mono h
              (List.mem_append_right _ (List.mem_singleton.mpr rfl))
          · exact ih h hr

theorem buildAttrs_empty_text_value {m : List (String × String)}
    {pre post : List DataElem} {k nm : String}
    {attrs : List (String × String)}
    (hk : alookup m k = some nm)
    (hpost : ∀ d ∈ post, alookup m d.key ≠ some nm)
    (hb : buildAttrs m (pre ++ ⟨k, none⟩ :: post) [] = .ok attrs) :
    alookup attrs nm = some "" := by
  rw [buildAttrs_append] at hb
  cases hpre : buildAttrs m pre [] with
  | error e =>
      rw [hpre] at hb
      exact absurd hb (by simp)
  | ok a1 =>
      rw [hpre] at hb
      simp only at hb
      rw [buildAttrs_cons_ok (applyData_eq_some hk)] at hb
      rw [buildAttrs_lookup_preserved hpost hb, alookup_aset_self]
      rfl

theorem parse_graphml_file_ok_inv {doc : GraphMLDoc} {g : Graph}
    {es ns : List (String × String)}
    (hp : parse_graphml_file doc = .ok (g, es, ns)) :
    ∃ s g1, scanKeys doc.keys ⟨[], [], [], []⟩ = .ok s ∧
      parseNodes s.nodeMap doc.nodes ⟨doc.name, [], []⟩ = .ok g1 ∧
      parseEdges s.edgeMap doc.edges g1 = .ok g ∧
      es = sortedProps s.edgeMap s.edgeProps ∧
      ns = sortedProps s.nodeMap s.nodeProps := by
  unfold parse_graphml_file at hp
  cases hsc : scanKeys doc.keys ⟨[], [], [], []⟩ with
  | error e =>
      rw [hsc] at hp
      exact absurd hp (by simp)
  | ok s =>
      rw [hsc] at hp
      simp only at hp
      cases hpn : parseNodes s.nodeMap doc.nodes ⟨doc.name, [], []⟩ with
      | error e =>
          rw [hpn] at hp
          exact absurd hp (by simp)
      | ok g1 =>
          rw [hpn] at hp
          simp only at hp
          cases hpe : parseEdges s.edgeMap doc.edges g1 with
          | error e =>
              rw [hpe] at hp
              exact absurd hp (by simp)
          | ok g2 =>
              rw [hpe] at hp
              simp only [Except.ok.injEq, Prod.mk.injEq] at hp
              exact ⟨s, g1, rfl, hpn, hp.1 ▸ hpe, hp.2.1.symm, hp.2.2.symm⟩

theorem scanKeys_cons_none {a : KeyDecl} {rest : List KeyDecl} {s0 : KeyScan}
    (hc : convert_graphml_type_to_sqlite a.attrType = none) :
    scanKeys (a :: rest) s0 = .error "KeyError: unmapped attribute type" := by
  have hstep : scanKeys (a :: rest) s0 =
      match convert_graphml_type_to_sqlite a.attrType with
      | none => .error "KeyError: unmapped attribute type"
      | some dt =>
        if a.forType = "edge" then
          scanKeys rest
            { s0 with
                edgeMap := aset s0.edgeMap a.id a.attrName,
                edgeProps := aset s0.edgeProps a.attrName dt }
        else
          scanKeys rest
            { s0 with
                nodeMap := aset s0.nodeMap a.id a.attrName,
                nodeProps := aset s0.nodeProps a.attrName dt } := rfl
  rw [hstep, hc]

theorem scanKeys_cons_some {a : KeyDecl} {rest : List KeyDecl} {s0 : KeyScan}
    {dt : String} (hc : convert_graphml_type_to_sqlite a.attrType = some dt) :
    scanKeys (a :: rest) s0 =
      if a.forType = "edge" then
        scanKeys rest
          { s0 with
              edgeMap := aset s0.edgeMap a.id a.attrName,
              edgeProps := aset s0.edgeProps a.attrName dt }
      else
        scanKeys rest
          { s0 with
              nodeMap := aset s0.nodeMap a.id a.attrName,
              nodeProps := aset s0.nodeProps a.attrName dt } := by
  have hstep : scanKeys (a :: rest) s0 =
      match convert_graphml_type_to_sqlite a.attrType with
      | none => .error "KeyError: unmapped attribute type"
      | some dt =>
        if a.forType = "edge" then
          scanKeys rest
            { s0 with
                edgeMap := aset s0.edgeMap a.id a.attrName,
                edgeProps := aset s0.edgeProps a.attrName dt }
        else
          scanKeys rest
            { s0 with
                nodeMap := aset s0.nodeMap a.id a.attrName,
                nodeProps := aset s0.nodeProps a.attrName dt } := rfl
  rw [hstep, hc]

theorem scanKeys_maps {l : List KeyDecl} {s0 s : KeyScan}
    (h : scanKeys l s0 = .ok s) :
    s.nodeMap = (l.filter (fun a => decide (a.forType ≠ "edge"))).foldl
      (fun m a => aset m a.id a.attrName) s0.nodeMap ∧
    s.edgeMap = (l.filter (fun a => decide (a.forType = "edge"))).foldl
      (fun m a => aset m a.id a.attrName) s0.edgeMap := by
  induction l generalizing s0 with
  | nil => cases h; exact ⟨rfl, rfl⟩
  | cons a rest ih =>
      cases hc : convert_graphml_type_to_sqlite a.attrType with
      | none =>
          rw [scanKeys_cons_none hc] at h
          exact absurd h (by simp)
      | some dt =>
          rw [scanKeys_cons_some hc] at h
          by_cases hfor : a.forType = "edge"
          · rw [if_pos hfor] at h
            obtain ⟨h1, h2⟩ := ih h
            constructor
            · rw [h1, List.filter_cons_of_neg (by simp [hfor])]
            · rw [h2, List.filter_cons_of_pos (by simp [hfor]),
                List.foldl_cons]
          · rw [if_neg hfor] at h
            obtain ⟨h1, h2⟩ := ih h
            constructor
            · rw [h1, List.filter_cons_of_pos (by simp [hfor]),
                List.foldl_cons]
            · rw [h2, List.filter_cons_of_neg (by simp [hfor])]

theorem acontains_false_of_not_mem {α : Type} {l : List (String × α)}
    {k : String} (h : k ∉ akeys l) : acontains l k = false := by
  cases hc : acontains l k with
  | false => rfl
  | true =>
      unfold acontains at hc
      exact absurd (mem_akeys_of_lookup hc) h

theorem foldl_aset_fresh {α β : Type} (f : β → String) (gf : β → α)
    (xs : List β) (m0 : List (String × α))
    (hnd : (xs.map f).Nodup) (hfresh : ∀ x ∈ xs, f x ∉ akeys m0) :
    xs.foldl (fun m x => aset m (f x) (gf x)) m0 =
      m0 ++ xs.map (fun x => (f x, gf x)) := by
  induction xs generalizing m0 with
  | nil => simp
  | cons x rest ih =>
      rw [List.foldl_cons,
        aset_of_not_contains _ _ _
          (acontains_false_of_not_mem (hfresh x (List.mem_cons_self _ _))),
        ih]
      · rw [List.map_cons, List.append_assoc, List.singleton_append]
      · rw [List.map_cons, List.nodup_cons] at hnd
        exact hnd.2
      · intro y hy hmem
        unfold akeys at hmem
        rw [List.map_append] at hmem
        rcases List.mem_append.mp hmem with h1 | h2
        · exact hfresh y (List.mem_cons_of_mem _ hy) h1
        · rw [List.map_singleton, List.mem_singleton] at h2
          have h2' : f y = f x := h2
          rw [List.map_cons, List.nodup_cons] at hnd
          exact hnd.1 (h2' ▸ List.mem_map_of_mem f hy)

theorem alookup_map_pairs_self {α β : Type} (f : β → String) (gf : β → α)
    (xs : List β) (a : β) (hnd : (xs.map f).Nodup) (ha : a ∈ xs) :
    alookup (xs.map (fun x => (f x, gf x))) (f a) = some (gf a) := by
  induction xs with
  | nil => cases ha
  | cons x rest ih =>
      rw [List.map_cons, alookup_cons]
      show (if f x = f a then some (gf x) else _) = _
      by_cases hx : f x = f a
      · rcases List.mem_cons.mp ha with he | hr
        · subst he
          rw [if_pos hx]
        · exfalso
          rw [List.map_cons, List.nodup_cons] at hnd
          exact hnd.1 (hx ▸ List.mem_map_of_mem f hr)
      · rw [if_neg hx]
        rcases List.mem_cons.mp ha with he | hr
        · subst he; exact absurd rfl hx
        · rw [List.map_cons, List.nodup_cons] at hnd
          exact ih hnd.2 hr

theorem pyLe_iff_le (a b : String) : pyLe a b ↔ a ≤ b := by
  constructor
  · rintro (hlt | heq)
    · exact le_of_lt (String.lt_iff_toList_lt.mpr hlt)
    · exact le_of_eq (String.toList_inj.mp heq)
  · intro h
    rcases lt_or_eq_of_le h with hlt | heq
    · exact Or.inl (String.lt_iff_toList_lt.mp hlt)
    · exact Or.inr (by rw [heq])

/-! ### Claim theorems (table extractor) -/

/-- Claim C1 is wrong about the code: the second guard in
`extract_edges_as_table` re-checks the source column name (its message
speaks of the target name), so a graph whose only edge carries an
attribute literally named like the reserved target column is NOT rejected
— extraction succeeds and the target endpoint column is silently
overwritten by the attribute values ("x" instead of endpoint "b") — while
the same graph with the attribute named like the source column does fail
with the naming-conflict error. -/
theorem target_attribute_collision_not_detected :
    extract_edges_as_table
        ⟨"G", [⟨"a", []⟩, ⟨"b", []⟩], [⟨"a", "b", [("target", "x")]⟩]⟩ =
      .ok [("source", [CellValue.str "a"]), ("target", [CellValue.str "x"])] ∧
    extract_edges_as_table
        ⟨"G", [⟨"a", []⟩, ⟨"b", []⟩], [⟨"a", "b", [("source", "x")]⟩]⟩ =
      .error "Source name source is an edge attribute name" :=
  ⟨rfl, rfl⟩

/-- Claim C7: when extraction succeeds, each table has one column per
attribute name appearing on ANY edge (resp. node) — in that column every
edge/node carrying the attribute contributes its real value and every one
lacking it contributes the not-a-number placeholder (`getCell`) — and
every column of either table has one entry per edge (resp. node), so the
tables are rectangular. -/
theorem extract_tables_union_attrs_and_nan_padding
    (g : Graph) (te tn : AttrTable)
    (he : extract_edges_as_table g = .ok te)
    (hn : extract_nodes_as_table g = .ok tn) :
    (∀ k, (∃ e ∈ g.edges, (alookup e.attrs k).isSome) →
      alookup te k = some (g.edges.map (fun e => getCell e.attrs k))) ∧
    (∀ p ∈ te, p.2.length = g.edges.length) ∧
    (∀ k, (∃ nd ∈ g.nodes, (alookup nd.attrs k).isSome) →
      alookup tn k = some (g.nodes.map (fun n => getCell n.attrs k))) ∧
    (∀ p ∈ tn, p.2.length = g.nodes.length) := by
  unfold extract_edges_as_table at he
  unfold extract_nodes_as_table at hn
  by_cases hS : SOURCE_COLUMN_NAME ∈ unionKeys (g.edges.map (fun e => e.attrs))
  · rw [if_pos hS] at he
    exact absurd he (by simp)
  · rw [if_neg hS, if_neg hS] at he
    by_cases hI : ID_COLUMN_NAME ∈ unionKeys (g.nodes.map (fun n => n.attrs))
    · rw [if_pos hI] at hn
      exact absurd hn (by simp)
    · rw [if_neg hI] at hn
      by_cases hS2 :
          SOURCE_COLUMN_NAME ∈ unionKeys (g.nodes.map (fun n => n.attrs))
      · rw [if_pos hS2] at hn
        exact absurd hn (by simp)
      · rw [if_neg hS2] at hn
        have hte : te =
            (( unionKeys (g.edges.map (fun e => e.attrs))).map
              (fun k => (k, g.edges.map (fun e => getCell e.attrs k)))).foldl
              (fun acc p => aset acc p.1 p.2)
              [(SOURCE_COLUMN_NAME, g.edges.map (fun e => .str e.source)),
               (TARGET_COLUMN_NAME, g.edges.map (fun e => .str e.target))] :=
          ((Except.ok.injEq _ _).mp he).symm
        have htn : tn =
            aset ((unionKeys (g.nodes.map (fun n => n.attrs))).map
              (fun k => (k, g.nodes.map (fun n => getCell n.attrs k))))
              ID_COLUMN_NAME (g.nodes.map (fun n => .str n.id)) :=
          ((Except.ok.injEq _ _).mp hn).symm
        have hndE : ((( unionKeys (g.edges.map (fun e => e.attrs))).map
            (fun k => (k, g.edges.map (fun e => getCell e.attrs k)))).map
              Prod.fst).Nodup := by
          rw [List.map_map]
          have hcomp : (Prod.fst ∘ fun k =>
              (k, g.edges.map (fun e => getCell e.attrs k))) = id := rfl
          rw [hcomp, List.map_id]
          exact unionKeys_nodup _
        refine ⟨?_, ?_, ?_, ?_⟩
        · intro k hex
          obtain ⟨e, hmem, hlk⟩ := hex
          have hkU : k ∈ unionKeys (g.edges.map (fun e => e.attrs)) :=
            mem_unionKeys _ e.attrs k (List.mem_map_of_mem _ hmem)
              (mem_akeys_of_lookup hlk)
          rw [hte]
          exact alookup_foldl_aset_mem _ _ _ _ hndE
            (List.mem_map_of_mem _ hkU)
        · intro p hp
          rw [hte] at hp
          rcases mem_foldl_aset _ _ _ hp with h1 | h2
          · rcases List.mem_cons.mp h1 with h3 | h4
            · rw [h3]; exact List.length_map _ _
            · rcases List.mem_cons.mp h4 with h5 | h6
              · rw [h5]; exact List.length_map _ _
              · cases h6
          · obtain ⟨k, _, hk2⟩ := List.mem_map.mp h2
            rw [← hk2]
            exact List.length_map _ _
        · intro k hex
          obtain ⟨nd, hmem, hlk⟩ := hex
          have hkU : k ∈ unionKeys (g.nodes.map (fun n => n.attrs)) :=
            mem_unionKeys _ nd.attrs k (List.mem_map_of_mem _ hmem)
              (mem_akeys_of_lookup hlk)
          have hkI : k ≠ ID_COLUMN_NAME := fun he' => hI (he' ▸ hkU)
          rw [htn, alookup_aset_ne _ _ _ _ hkI]
          exact alookup_map_pairs_value _ _ _ hkU
        · intro p hp
          rw [htn] at hp
          rcases mem_aset _ _ _ _ hp with h1 | h2
          · obtain ⟨k, _, hk2⟩ := List.mem_map.mp h1
            rw [← hk2]
            exact List.length_map _ _
          · rw [h2]
            exact List.length_map _ _

/-- Witness for claim C7: the two-node graph where A has `color` and B
does not, with one edge carrying `weight`: the weight column holds the
real value, the color column holds A's value and a NaN for B. -/
theorem extract_tables_union_attrs_and_nan_padding_witness :
    alookup [("source", [CellValue.str "A"]), ("target", [CellValue.str "B"]),
        ("weight", [CellValue.str "3"])] "weight" =
      some [CellValue.str "3"] ∧
    alookup [("color", [CellValue.str "red", CellValue.nan]),
        ("id", [CellValue.str "A", CellValue.str "B"])] "color" =
      some [CellValue.str "red", CellValue.nan] := by
  have h := extract_tables_union_attrs_and_nan_padding
    ⟨"G", [⟨"A", [("color", "red")]⟩, ⟨"B", []⟩], [⟨"A", "B", [("weight", "3")]⟩]⟩
    [("source", [CellValue.str "A"]), ("target", [CellValue.str "B"]),
      ("weight", [CellValue.str "3"])]
    [("color", [CellValue.str "red", CellValue.nan]),
      ("id", [CellValue.str "A", CellValue.str "B"])]
    rfl rfl
  refine ⟨h.1 "weight" ⟨⟨"A", "B", [("weight", "3")]⟩, by decide, by decide⟩,
    h.2.2.1 "color" ⟨⟨"A", [("color", "red")]⟩, by decide, by decide⟩⟩

/-- Claim C6: parsing a well-formed document with N `<node>` and M
`<edge>` elements yields a graph with exactly N nodes and M edges, and the
two returned attribute schemas list their keys in the ascending order of
the original `<key>` id attributes: the schema key sequence is the
resolved names of a sorted (ascending, `≤` on strings as Python sorts
them) permutation of the declared ids.  Well-formedness supplies the
success of the parse and the GraphML uniqueness of key ids and attribute
names. -/
theorem parse_yields_counts_and_id_sorted_schemas
    (doc : GraphMLDoc) (g : Graph) (es ns : List (String × String))
    (hp : parse_graphml_file doc = .ok (g, es, ns))
    (hids : (doc.keys.map (fun a => a.id)).Nodup)
    (hnn : ((nodeKeyDecls doc).map (fun a => a.attrName)).Nodup)
    (hen : ((edgeKeyDecls doc).map (fun a => a.attrName)).Nodup) :
    g.nodes.length = doc.nodes.length ∧
    g.edges.length = doc.edges.length ∧
    ns.map Prod.fst =
      (List.insertionSort pyLe (nodeKeyIds doc)).map (nodeKeyName doc) ∧
    (List.insertionSort pyLe (nodeKeyIds doc)).Sorted
      (fun a b : String => a ≤ b) ∧
    (List.insertionSort pyLe (nodeKeyIds doc)).Perm (nodeKeyIds doc) ∧
    es.map Prod.fst =
      (List.insertionSort pyLe (edgeKeyIds doc)).map (edgeKeyName doc) ∧
    (List.insertionSort pyLe (edgeKeyIds doc)).Sorted
      (fun a b : String => a ≤ b) ∧
    (List.insertionSort pyLe (edgeKeyIds doc)).Perm (edgeKeyIds doc) := by
  obtain ⟨s, g1, hsc, hpn, hpe, hes, hns⟩ := parse_graphml_file_ok_inv hp
  obtain ⟨hsn, hse⟩ := scanKeys_maps hsc
  have hidsN : ((nodeKeyDecls doc).map (fun a => a.id)).Nodup :=
    List.Nodup.sublist ((List.filter_sublist _).map _) hids
  have hidsE : ((edgeKeyDecls doc).map (fun a => a.id)).Nodup :=
    List.Nodup.sublist ((List.filter_sublist _).map _) hids
  have hmapN : s.nodeMap =
      (nodeKeyDecls doc).map (fun a => (a.id, a.attrName)) := by
    rw [hsn]
    have := foldl_aset_fresh (fun a : KeyDecl => a.id)
      (fun a : KeyDecl => a.attrName) (nodeKeyDecls doc) [] hidsN
      (fun x _ hm => (List.not_mem_nil _) hm)
    rw [List.nil_append] at this
    exact this
  have hmapE : s.edgeMap =
      (edgeKeyDecls doc).map (fun a => (a.id, a.attrName)) := by
    rw [hse]
    have := foldl_aset_fresh (fun a : KeyDecl => a.id)
      (fun a : KeyDecl => a.attrName) (edgeKeyDecls doc) [] hidsE
      (fun x _ hm => (List.not_mem_nil _) hm)
    rw [List.nil_append] at this
    exact this
  have hkeysN : akeys s.nodeMap = nodeKeyIds doc := by
    rw [hmapN]
    unfold akeys nodeKeyIds
    rw [List.map_map]
    rfl
  have hkeysE : akeys s.edgeMap = edgeKeyIds doc := by
    rw [hmapE]
    unfold akeys edgeKeyIds
    rw [List.map_map]
    rfl
  have hnskeys : (sortedProps s.nodeMap s.nodeProps).map Prod.fst =
      (List.insertionSort pyLe (nodeKeyIds doc)).map (nodeKeyName doc) := by
    have hform : sortedProps s.nodeMap s.nodeProps =
        (List.insertionSort pyLe (akeys s.nodeMap)).foldl
          (fun acc key => aset acc ((alookup s.nodeMap key).getD "")
            ((alookup s.nodeProps ((alookup s.nodeMap key).getD "")).getD ""))
          [] := rfl
    have hndnames : ((List.insertionSort pyLe (nodeKeyIds doc)).map
        (fun key => (alookup s.nodeMap key).getD "")).Nodup := by
      have hperm := (List.perm_insertionSort pyLe (nodeKeyIds doc)).map
        (fun key => (alookup s.nodeMap key).getD "")
      rw [List.Perm.nodup_iff hperm]
      have hnames : (nodeKeyIds doc).map
          (fun key => (alookup s.nodeMap key).getD "") =
          (nodeKeyDecls doc).map (fun a => a.attrName) := by
        unfold nodeKeyIds
        rw [List.map_map]
        apply List.map_congr_left
        intro a ha
        show (alookup s.nodeMap a.id).getD "" = a.attrName
        rw [hmapN, alookup_map_pairs_self (fun a : KeyDecl => a.id)
          (fun a : KeyDecl => a.attrName) _ a hidsN ha]
        rfl
      rw [hnames]
      exact hnn
    have hfold := foldl_aset_fresh
      (fun key => (alookup s.nodeMap key).getD "")
      (fun key =>
        (alookup s.nodeProps ((alookup s.nodeMap key).getD "")).getD "")
      (List.insertionSort pyLe (nodeKeyIds doc)) [] hndnames
      (fun x _ hm => (List.not_mem_nil _) hm)
    rw [List.nil_append] at hfold
    rw [hform, hkeysN, hfold, List.map_map]
    apply List.map_congr_left
    intro key _
    show (alookup s.nodeMap key).getD "" = nodeKeyName doc key
    rw [hmapN]
    rfl
  have heskeys : (sortedProps s.edgeMap s.edgeProps).map Prod.fst =
      (List.insertionSort pyLe (edgeKeyIds doc)).map (edgeKeyName doc) := by
    have hform : sortedProps s.edgeMap s.edgeProps =
        (List.insertionSort pyLe (akeys s.edgeMap)).foldl
          (fun acc key => aset acc ((alookup s.edgeMap key).getD "")
            ((alookup s.edgeProps ((alookup s.edgeMap key).getD "")).getD ""))
          [] := rfl
    have hndnames : ((List.insertionSort pyLe (edgeKeyIds doc)).map
        (fun key => (alookup s.edgeMap key).getD "")).Nodup := by
      have hperm := (List.perm_insertionSort pyLe (edgeKeyIds doc)).map
        (fun key => (alookup s.edgeMap key).getD "")
      rw [List.Perm.nodup_iff hperm]
      have hnames : (edgeKeyIds doc).map
          (fun key => (alookup s.edgeMap key).getD "") =
          (edgeKeyDecls doc).map (fun a => a.attrName) := by
        unfold edgeKeyIds
        rw [List.map_map]
        apply List.map_congr_left
        intro a ha
        show (alookup s.edgeMap a.id).getD "" = a.attrName
        rw [hmapE, alookup_map_pairs_self (fun a : KeyDecl => a.id)
          (fun a : KeyDecl => a.attrName) _ a hidsE ha]
        rfl
      rw [hnames]
      exact hen
    have hfold := foldl_aset_fresh
      (fun key => (alookup s.edgeMap key).getD "")
      (fun key =>
        (alookup s.edgeProps ((alookup s.edgeMap key).getD "")).getD "")
      (List.insertionSort pyLe (edgeKeyIds doc)) [] hndnames
      (fun x _ hm => (List.not_mem_nil _) hm)
    rw [List.nil_append] at hfold
    rw [hform, hkeysE, hfold, List.map_map]
    apply List.map_congr_left
    intro key _
    show (alookup s.edgeMap key).getD "" = edgeKeyName doc key
    rw [hmapE]
    rfl
  obtain ⟨hn1, hn2⟩ := parseNodes_ok_shape hpn
  obtain ⟨he1, he2⟩ := parseEdges_ok_shape hpe
  refine ⟨?_, ?_, ?_, ?_, ?_, ?_, ?_, ?_⟩
  · rw [he2, hn1]; simp
  · rw [he1, hn2]; simp
  · rw [hns]; exact hnskeys
  · exact List.Pairwise.imp (fun hab => (pyLe_iff_le _ _).mp hab)
      (List.sorted_insertionSort pyLe _)
  · exact List.perm_insertionSort pyLe _
  · rw [hes]; exact heskeys
  · exact List.Pairwise.imp (fun hab => (pyLe_iff_le _ _).mp hab)
      (List.sorted_insertionSort pyLe _)
  · exact List.perm_insertionSort pyLe _

/-- Witness for claim C6: a document with two keys (declared in id order
d1, d0), two nodes and one edge parses to two nodes, one edge, and the
node schema keyed by the name of d0. -/
theorem parse_yields_counts_and_id_sorted_schemas_witness :
    (⟨"G", [⟨"n0", [("color", "red")]⟩, ⟨"n1", [("color", "")]⟩],
        [⟨"n0", "n1", [("weight", "1.5")]⟩]⟩ : Graph).nodes.length = 2 ∧
    (⟨"G", [⟨"n0", [("color", "red")]⟩, ⟨"n1", [("color", "")]⟩],
        [⟨"n0", "n1", [("weight", "1.5")]⟩]⟩ : Graph).edges.length = 1 ∧
    ([("color", "TEXT")] : List (String × String)).map Prod.fst =
      (List.insertionSort pyLe (nodeKeyIds
        ⟨"G", [⟨"d1", "weight", "edge", "double"⟩,
               ⟨"d0", "color", "node", "string"⟩],
          [⟨"n0", [⟨"d0", some "red"⟩]⟩, ⟨"n1", [⟨"d0", none⟩]⟩],
          [⟨"n0", "n1", [⟨"d1", some "1.5"⟩]⟩]⟩)).map
        (nodeKeyName
          ⟨"G", [⟨"d1", "weight", "edge", "double"⟩,
                 ⟨"d0", "color", "node", "string"⟩],
            [⟨"n0", [⟨"d0", some "red"⟩]⟩, ⟨"n1", [⟨"d0", none⟩]⟩],
            [⟨"n0", "n1", [⟨"d1", some "1.5"⟩]⟩]⟩) := by
  have h := parse_yields_counts_and_id_sorted_schemas
    ⟨"G", [⟨"d1", "weight", "edge", "double"⟩,
           ⟨"d0", "color", "node", "string"⟩],
      [⟨"n0", [⟨"d0", some "red"⟩]⟩, ⟨"n1", [⟨"d0", none⟩]⟩],
      [⟨"n0", "n1", [⟨"d1", some "1.5"⟩]⟩]⟩
    ⟨"G", [⟨"n0", [("color", "red")]⟩, ⟨"n1", [("color", "")]⟩],
      [⟨"n0", "n1", [("weight", "1.5")]⟩]⟩
    [("weight", "REAL")] [("color", "TEXT")]
    rfl (by decide) (by decide) (by decide)
  exact ⟨h.1, h.2.1, h.2.2.1⟩

/-- Claim C8: a `<data>` child with no text content — of a `<node>` or of
an `<edge>` — makes the parser set the resolved attribute to the empty
string: the attribute is present on the parsed node (resp. edge) with
value "" rather than absent.  (The last `<data>` element resolving to the
attribute fixes its final value, so the empty element is taken as the
last occurrence for its name.) -/
theorem empty_data_yields_empty_string_attribute
    (doc : GraphMLDoc) (g : Graph) (es ns : List (String × String))
    (s : KeyScan)
    (hp : parse_graphml_file doc = .ok (g, es, ns))
    (hs : scanKeys doc.keys ⟨[], [], [], []⟩ = .ok s) :
    (∀ ne ∈ doc.nodes, ∀ (attrs : List (String × String)) (k nm : String)
      (pre post : List DataElem),
      ne.data = pre ++ ⟨k, none⟩ :: post →
      alookup s.nodeMap k = some nm →
      (∀ d ∈ post, alookup s.nodeMap d.key ≠ some nm) →
      buildAttrs s.nodeMap ne.data [] = .ok attrs →
      (⟨ne.id, attrs⟩ : GNode) ∈ g.nodes ∧ alookup attrs nm = some "") ∧
    (∀ ee ∈ doc.edges, ∀ (attrs : List (String × String)) (k nm : String)
      (pre post : List DataElem),
      ee.data = pre ++ ⟨k, none⟩ :: post →
      alookup s.edgeMap k = some nm →
      (∀ d ∈ post, alookup s.edgeMap d.key ≠ some nm) →
      buildAttrs s.edgeMap ee.data [] = .ok attrs →
      (⟨ee.source, ee.target, attrs⟩ : GEdge) ∈ g.edges ∧
        alookup attrs nm = some "") := by
  obtain ⟨s', g1, hsc, hpn, hpe, _, _⟩ := parse_graphml_file_ok_inv hp
  have hss : s' = s := by
    rw [hs] at hsc
    exact ((Except.ok.injEq _ _).mp hsc).symm
  subst hss
  constructor
  · intro ne hne attrs k nm pre post hdata hk hpost hb
    constructor
    · have hmem := parseNodes_mem hpn hne hb
      rw [(parseEdges_ok_shape hpe).2]
      exact hmem
    · exact buildAttrs_empty_text_value hk hpost (hdata ▸ hb)
  · intro ee hee attrs k nm pre post hdata hk hpost hb
    constructor
    · exact parseEdges_mem hpe hee hb
    · exact buildAttrs_empty_text_value hk hpost (hdata ▸ hb)

/-- Witness for claim C8: node n1's single `<data key="d0">` element and
the edge's single `<data key="d1">` element both have no text; the parsed
node carries `color` with value "" and the parsed edge carries `weight`
with value "". -/
theorem empty_data_yields_empty_string_attribute_witness :
    ((⟨"n1", [("color", "")]⟩ : GNode) ∈
        (⟨"G", [⟨"n1", [("color", "")]⟩],
          [⟨"n0", "n1", [("weight", "")]⟩]⟩ : Graph).nodes ∧
      alookup [("color", "")] "color" = some "") ∧
    ((⟨"n0", "n1", [("weight", "")]⟩ : GEdge) ∈
        (⟨"G", [⟨"n1", [("color", "")]⟩],
          [⟨"n0", "n1", [("weight", "")]⟩]⟩ : Graph).edges ∧
      alookup [("weight", "")] "weight" = some "") := by
  have h := empty_data_yields_empty_string_attribute
    ⟨"G", [⟨"d1", "weight", "edge", "double"⟩,
           ⟨"d0", "color", "node", "string"⟩],
      [⟨"n1", [⟨"d0", none⟩]⟩],
      [⟨"n0", "n1", [⟨"d1", none⟩]⟩]⟩
    ⟨"G", [⟨"n1", [("color", "")]⟩], [⟨"n0", "n1", [("weight", "")]⟩]⟩
    [("weight", "REAL")] [("color", "TEXT")]
    ⟨[("d1", "weight")], [("d0", "color")], [("weight", "REAL")],
      [("color", "TEXT")]⟩
    rfl rfl
  refine ⟨h.1 ⟨"n1", [⟨"d0", none⟩]⟩ (by decide) [("color", "")] "d0" "color"
      [] [] rfl rfl (fun d hd => absurd hd (List.not_mem_nil _)) rfl,
    h.2 ⟨"n0", "n1", [⟨"d1", none⟩]⟩ (by decide) [("weight", "")] "d1"
      "weight" [] [] rfl rfl (fun d hd => absurd hd (List.not_mem_nil _)) rfl⟩

end NetworkAnalysis
